import Mathlib

/-!
Shallow embedding of the alarm facility in
`src/src/modules/coreinit/coreinit_alarm.cpp`.

Modelling conventions:
- `OSTime` (a signed 64-bit integer in the source) is modelled as `Int`;
  none of the verified properties involve wraparound.
- The three per-core alarm queues `gAlarmQueue[CoreCount]` (the cancel loop
  iterates `i = 0,1,2`) become `queues : Fin 3 → List Nat`, holding alarm
  identifiers; the global table of alarm records becomes `alarms : Nat → OSAlarm`.
- Each operation returns, besides its result state, a list of `Event`s
  recording the primitive calls it makes: spinlock acquire/release
  (`ScopedSpinLock`, `OSUninterruptibleSpinLock_Acquire/Release`), scheduler
  lock, queue erase/append (`OSEraseFromQueue` / `OSAppendQueue`, whose
  bodies live in a header outside `src/`; erasing is modelled from the spec
  as removing the element from the list, a no-op when absent), thread
  wake/sleep (`OSWakeupThread(NoLock)` / `OSSleepThreadNoLock`), callback
  invocation, interrupt-timer arming (`gProcessor.setInterruptTimer`, where
  `none` stands for `chrono::time_point::max()`, i.e. "never"), and
  assertion failure.
- `OSGetTime()` is modelled as the clock value `now` passed to the
  operation; within one invocation the clock is treated as constant.
- `OSTimeToChrono` is a monotone injective conversion and is modelled as
  the identity, so the interrupt timer carries `Option Int`.
-/

inductive OSAlarmState where
  | None
  | Set
  | Cancelled
deriving DecidableEq

inductive Event where
  | lockAcquire
  | lockRelease
  | schedLock
  | schedUnlock
  | eraseQ (core : Fin 3) (id : Nat)
  | appendQ (core : Fin 3) (id : Nat)
  | wake (tid : Nat)
  | sleep (tid : Nat)
  | callbackInvoke (cb : Nat) (id : Nat)
  | setTimer (core : Fin 3) (t : Option Int)
  | assertFail
deriving DecidableEq

/-- The fields of `struct OSAlarm`.  `tag` is the identity sentinel,
`alarmTag` the group tag, `threadQueue` the wait set (thread ids),
`alarmQueue` the back-reference to the owning per-core queue.
Callbacks and user data are opaque and represented by numeric handles. -/
structure OSAlarm where
  tag : Nat
  name : Option Nat
  state : OSAlarmState
  nextFire : Int
  period : Int
  callback : Option Nat
  context : Option Nat
  alarmTag : Nat
  userData : Option Nat
  threadQueue : List Nat
  alarmQueue : Option (Fin 3)
deriving DecidableEq

/-- Modelled from the spec: `identityTag` is "a sentinel value validated on
entry"; the concrete constant `OSAlarm::Tag` lives in a header outside
`src/`.  Only its being distinct from the zero left by `memset` matters. -/
def OSAlarm.Tag : Nat := 0x614C524D

/-- The global state: every alarm record plus the three per-core queues
(`gAlarmQueue`). -/
structure AlarmSystem where
  alarms : Nat → OSAlarm
  queues : Fin 3 → List Nat

def updAlarm (s : AlarmSystem) (id : Nat) (a : OSAlarm) : AlarmSystem :=
  { s with alarms := fun j => if j = id then a else s.alarms j }

def updQueue (s : AlarmSystem) (c : Fin 3) (l : List Nat) : AlarmSystem :=
  { s with queues := fun c' => if c' = c then l else s.queues c' }

/-- The record produced by `memset(alarm, 0, sizeof(OSAlarm))`. -/
def zeroAlarm : OSAlarm :=
  { tag := 0, name := none, state := .None, nextFire := 0, period := 0,
    callback := none, context := none, alarmTag := 0, userData := none,
    threadQueue := [], alarmQueue := none }

/-- `CoreInit::initialiseAlarm`: empty queues; no alarm storage has been
initialised yet, so every record reads as zeroed memory. -/
def initialSystem : AlarmSystem :=
  { alarms := fun _ => zeroAlarm, queues := fun _ => [] }

/-- `OSCreateAlarmEx`: memset to zero, stamp the identity tag, store the
name, initialise the (empty) thread queue. -/
def OSCreateAlarmEx (s : AlarmSystem) (id : Nat) (name : Option Nat) : AlarmSystem :=
  updAlarm s id { zeroAlarm with tag := OSAlarm.Tag, name := name }

def OSCreateAlarm (s : AlarmSystem) (id : Nat) : AlarmSystem :=
  OSCreateAlarmEx s id none

/-- `OSCancelAlarmNoLock`: fail unless the state is `Set`; otherwise mark
`Cancelled`, clear `nextFire` and `period`, erase from the back-referenced
queue when that reference is non-null (the reference itself is not
cleared), and wake everything in the thread queue. -/
def OSCancelAlarmNoLock (s : AlarmSystem) (id : Nat) :
    AlarmSystem × Bool × List Event :=
  let a := s.alarms id
  if a.state ≠ OSAlarmState.Set then
    (s, false, [])
  else
    let a₁ := { a with state := OSAlarmState.Cancelled, nextFire := 0, period := 0 }
    let s₁ := updAlarm s id a₁
    let er :=
      match a₁.alarmQueue with
      | some c => (updQueue s₁ c ((s₁.queues c).filter (fun j => j ≠ id)), [Event.eraseQ c id])
      | none => (s₁, [])
    let woken := (er.1.alarms id).threadQueue
    let s₂ := updAlarm er.1 id { er.1.alarms id with threadQueue := [] }
    (s₂, true, er.2 ++ woken.map Event.wake)

/-- `OSCancelAlarm`: the no-lock body under `ScopedSpinLock`. -/
def OSCancelAlarm (s : AlarmSystem) (id : Nat) :
    AlarmSystem × Bool × List Event :=
  let r := OSCancelAlarmNoLock s id
  (r.1, r.2.1, [Event.lockAcquire] ++ r.2.2 ++ [Event.lockRelease])

/-- The inner loop of `OSCancelAlarms` over one queue: the iteration
captures `alarm->link.next` before cancelling, so it walks the snapshot of
the queue taken at loop entry; cancelling only unlinks the current node. -/
def cancelTagInQueue (t : Nat) : List Nat → AlarmSystem → AlarmSystem × List Event
  | [], s => (s, [])
  | id :: rest, s =>
    let step :=
      if (s.alarms id).alarmTag = t then
        let r := OSCancelAlarmNoLock s id
        (r.1, r.2.2)
      else
        (s, [])
    let r₂ := cancelTagInQueue t rest step.1
    (r₂.1, step.2 ++ r₂.2)

/-- `OSCancelAlarms`: under one `ScopedSpinLock`, scan the queues of cores
0, 1, 2 in order and cancel matching-tag alarms. -/
def OSCancelAlarms (t : Nat) (s : AlarmSystem) : AlarmSystem × List Event :=
  let r0 := cancelTagInQueue t (s.queues 0) s
  let r1 := cancelTagInQueue t (r0.1.queues 1) r0.1
  let r2 := cancelTagInQueue t (r1.1.queues 2) r1.1
  (r2.1, [Event.lockAcquire] ++ r0.2 ++ r1.2 ++ r2.2 ++ [Event.lockRelease])

def OSGetAlarmUserData (s : AlarmSystem) (id : Nat) :
    AlarmSystem × Option Nat × List Event :=
  (s, (s.alarms id).userData, [])

def OSSetAlarmTag (s : AlarmSystem) (id : Nat) (t : Nat) :
    AlarmSystem × List Event :=
  (updAlarm s id { s.alarms id with alarmTag := t },
   [Event.lockAcquire, Event.lockRelease])

def OSSetAlarmUserData (s : AlarmSystem) (id : Nat) (d : Option Nat) :
    AlarmSystem × List Event :=
  (updAlarm s id { s.alarms id with userData := d },
   [Event.lockAcquire, Event.lockRelease])

/-- `OSSetPeriodicAlarm`, executing on core `core`: under the lock, set the
fields, erase from the previously back-referenced queue when non-null,
append to the current core's queue, and arm that core's interrupt timer
with `nextFire` unconditionally; always returns `TRUE`. -/
def OSSetPeriodicAlarm (core : Fin 3) (s : AlarmSystem) (id : Nat)
    (start interval : Int) (cb : Option Nat) :
    AlarmSystem × Bool × List Event :=
  let a := s.alarms id
  let a₁ := { a with nextFire := start, callback := cb, period := interval,
                     context := none, state := OSAlarmState.Set }
  let s₁ := updAlarm s id a₁
  let er :=
    match a₁.alarmQueue with
    | some c => (updQueue s₁ c ((s₁.queues c).filter (fun j => j ≠ id)), [Event.eraseQ c id])
    | none => (s₁, [])
  let s₂ := updAlarm er.1 id { er.1.alarms id with alarmQueue := some core }
  let s₃ := updQueue s₂ core (s₂.queues core ++ [id])
  (s₃, true,
   [Event.lockAcquire] ++ er.2 ++
     [Event.appendQ core id, Event.setTimer core (some start), Event.lockRelease])

/-- `OSSetAlarm`: one-shot arming, literally
`OSSetPeriodicAlarm(alarm, OSGetTime() + time, 0, callback)`. -/
def OSSetAlarm (core : Fin 3) (now : Int) (s : AlarmSystem) (id : Nat)
    (delay : Int) (cb : Option Nat) : AlarmSystem × Bool × List Event :=
  OSSetPeriodicAlarm core s id (now + delay) 0 cb

inductive WaitOutcome where
  | fatal
  | immediate (r : Bool)
  | suspended
deriving DecidableEq

/-- `OSWaitAlarm` up to its suspension point (`OSRescheduleNoLock`): lock
the scheduler then the alarm lock, assert the identity tag, return `FALSE`
at once when the state is not `Set`, otherwise put the calling thread on
the alarm's thread queue and suspend. -/
def OSWaitAlarmEntry (s : AlarmSystem) (tid : Nat) (id : Nat) :
    AlarmSystem × WaitOutcome × List Event :=
  if (s.alarms id).tag ≠ OSAlarm.Tag then
    (s, WaitOutcome.fatal, [Event.schedLock, Event.lockAcquire, Event.assertFail])
  else if (s.alarms id).state ≠ OSAlarmState.Set then
    (s, WaitOutcome.immediate false,
     [Event.schedLock, Event.lockAcquire, Event.lockRelease, Event.schedUnlock])
  else
    (updAlarm s id
       { s.alarms id with threadQueue := (s.alarms id).threadQueue ++ [tid] },
     WaitOutcome.suspended,
     [Event.schedLock, Event.lockAcquire, Event.sleep tid, Event.lockRelease])

/-- `OSWaitAlarm` after the woken thread re-acquires the alarm lock: the
result is `TRUE` exactly when the state it observes is not `Cancelled`. -/
def OSWaitAlarmResume (s : AlarmSystem) (id : Nat) : Bool × List Event :=
  (if (s.alarms id).state = OSAlarmState.Cancelled then false else true,
   [Event.lockAcquire, Event.lockRelease, Event.schedUnlock])

/-- `OSTriggerAlarmNoLock`: store the interrupt context; a periodic alarm
re-arms at `now + period` and stays `Set`; a one-shot alarm clears
`nextFire`, becomes `None`, and is erased from its back-referenced queue
(the source dereferences `alarm->alarmQueue` unguarded here; a null
back-reference is modelled as skipping the erase).  If a callback is
present the alarm lock is released around its invocation.  Finally every
thread in the thread queue is woken. -/
def OSTriggerAlarmNoLock (now : Int) (ctx : Nat) (s : AlarmSystem) (id : Nat) :
    AlarmSystem × List Event :=
  let a := s.alarms id
  let a₁ := { a with context := some ctx }
  let fired :=
    if a₁.period ≠ 0 then
      (updAlarm s id { a₁ with nextFire := now + a₁.period, state := OSAlarmState.Set },
       ([] : List Event))
    else
      let s' := updAlarm s id { a₁ with nextFire := 0, state := OSAlarmState.None }
      match a₁.alarmQueue with
      | some c =>
        (updQueue s' c ((s'.queues c).filter (fun j => j ≠ id)), [Event.eraseQ c id])
      | none => (s', [])
  let evCb :=
    match a₁.callback with
    | some cb => [Event.lockRelease, Event.callbackInvoke cb id, Event.lockAcquire]
    | none => []
  let woken := (fired.1.alarms id).threadQueue
  let s₂ := updAlarm fired.1 id { fired.1.alarms id with threadQueue := [] }
  (s₂, fired.2 ++ evCb ++ woken.map Event.wake)

/-- `min` accumulation in `OSCheckAlarms`: `next` starts at
`time_point::max()` (here `none`) and is lowered by strict comparison. -/
def minOpt (o : Option Int) (v : Int) : Option Int :=
  match o with
  | none => some v
  | some w => if v < w then some v else some w

/-- The scan loop of `OSCheckAlarms` over the queue snapshot: the iteration
captures `alarm->link.next` before triggering, so it walks the ids present
at loop entry.  Each due, non-cancelled alarm is triggered; afterwards the
freshly read record contributes to the minimum when its state is `Set`
and its `nextFire` is non-null. -/
def OSCheckList (now : Int) (ctx : Nat) :
    List Nat → AlarmSystem → Option Int → AlarmSystem × Option Int × List Event
  | [], s, next => (s, next, [])
  | id :: rest, s, next =>
    let step :=
      if (s.alarms id).nextFire ≤ now ∧ (s.alarms id).state ≠ OSAlarmState.Cancelled then
        OSTriggerAlarmNoLock now ctx s id
      else
        (s, [])
    let a := step.1.alarms id
    let next₁ :=
      if a.state = OSAlarmState.Set ∧ a.nextFire ≠ 0 then minOpt next a.nextFire
      else next
    let r := OSCheckList now ctx rest step.1 next₁
    (r.1, r.2.1, step.2 ++ r.2.2)

/-- `OSCheckAlarms`: scan this core's queue under the scheduler and alarm
locks, then (after releasing both) re-arm this core's interrupt timer with
the accumulated minimum. -/
def OSCheckAlarms (core : Fin 3) (now : Int) (ctx : Nat) (s : AlarmSystem) :
    AlarmSystem × List Event :=
  let r := OSCheckList now ctx (s.queues core) s none
  (r.1,
   [Event.schedLock, Event.lockAcquire] ++ r.2.2 ++
     [Event.lockRelease, Event.schedUnlock, Event.setTimer core r.2.1])

/-- Alarm `id` is linked into queue `c` exactly once and into no other
queue. -/
def linkedOnce (s : AlarmSystem) (id : Nat) (c : Fin 3) : Prop :=
  (s.queues c).count id = 1 ∧ ∀ c' : Fin 3, c' ≠ c → (s.queues c').count id = 0

/-- The per-alarm part of the queue-linkage invariant: a `Set` alarm is
linked exactly once, into the queue its back-reference names; a non-`Set`
alarm is linked nowhere and its `nextFire` is cleared. -/
def WFalarm (s : AlarmSystem) (id : Nat) : Prop :=
  ((s.alarms id).state = OSAlarmState.Set →
     ∃ c : Fin 3, (s.alarms id).alarmQueue = some c ∧ linkedOnce s id c) ∧
  ((s.alarms id).state ≠ OSAlarmState.Set →
     (∀ c : Fin 3, (s.queues c).count id = 0) ∧ (s.alarms id).nextFire = 0)

/-- The system-wide invariant over the finite domain `dom` of alarm ids in
play: queues mention only domain ids, contain no duplicates, and every
domain alarm satisfies `WFalarm`. -/
def WFon (dom : List Nat) (s : AlarmSystem) : Prop :=
  (∀ c : Fin 3, ∀ j ∈ s.queues c, j ∈ dom) ∧
  (∀ c : Fin 3, (s.queues c).Nodup) ∧
  (∀ id ∈ dom, WFalarm s id)

instance (dom : List Nat) (s : AlarmSystem) : Decidable (WFon dom s) := by
  unfold WFon WFalarm linkedOnce
  infer_instance

/-- The operations of the facility, for reasoning about arbitrary call
sequences. -/
inductive AlarmOp where
  | create (id : Nat)
  | setPeriodic (core : Fin 3) (id : Nat) (start interval : Int) (cb : Option Nat)
  | cancel (id : Nat)
  | cancelTag (t : Nat)
  | check (core : Fin 3) (now : Int) (ctx : Nat)
deriving DecidableEq

def applyOp (s : AlarmSystem) : AlarmOp → AlarmSystem
  | .create id => OSCreateAlarm s id
  | .setPeriodic core id start interval cb =>
      (OSSetPeriodicAlarm core s id start interval cb).1
  | .cancel id => (OSCancelAlarm s id).1
  | .cancelTag t => (OSCancelAlarms t s).1
  | .check core now ctx => (OSCheckAlarms core now ctx s).1

def runOps (s : AlarmSystem) : List AlarmOp → AlarmSystem
  | [] => s
  | op :: rest => runOps (applyOp s op) rest

/-- `OSCreateAlarmEx` memsets the record without unlinking it; a
well-behaved caller only creates alarms that are not currently linked.
This check marks the sequences on which that precondition holds. -/
def createSafe (s : AlarmSystem) : AlarmOp → Bool
  | .create id => decide (∀ c : Fin 3, (s.queues c).count id = 0)
  | _ => true

def runSafe (s : AlarmSystem) : List AlarmOp → Bool
  | [] => true
  | op :: rest => createSafe s op && runSafe (applyOp s op) rest

/-- The alarm record an operation addresses lies in the domain `dom`
(bulk cancellation and the trigger engine address only queued alarms). -/
def opInDom (dom : List Nat) : AlarmOp → Prop
  | .create id => id ∈ dom
  | .setPeriodic _ id _ _ _ => id ∈ dom
  | .cancel id => id ∈ dom
  | .cancelTag _ => True
  | .check _ _ _ => True

instance (dom : List Nat) (op : AlarmOp) : Decidable (opInDom dom op) := by
  cases op <;> simp only [opInDom] <;> infer_instance

/-- The contribution of one scanned alarm record to the interrupt-timer
minimum in `OSCheckAlarms`: line 222 of the source counts an alarm only
when `alarm->state == OSAlarmState::Set && alarm->nextFire` (non-null). -/
def contribOf (a : OSAlarm) : Option Int :=
  if a.state = OSAlarmState.Set ∧ a.nextFire ≠ 0 then some a.nextFire else none

/-- A freshly created alarm 0, armed one-shot on core 0 for time 100, with
thread 5 blocked on it. -/
def exampleArmed : AlarmSystem :=
  (OSWaitAlarmEntry
    (OSSetPeriodicAlarm 0 (OSCreateAlarm initialSystem 0) 0 100 0 none).1 5 0).1

/-- An uninitialised / foreign-typed record (identity tag 999) sitting armed
in core 0's queue. -/
def exampleForeign : AlarmSystem :=
  updQueue
    (updAlarm initialSystem 0
      { zeroAlarm with tag := 999, state := OSAlarmState.Set, nextFire := 50,
                       alarmQueue := some 0 })
    0 [0]

/-- Alarm 0 armed periodic on core 0: first fire at 3, period -5.  At
`now = 5` it fires and re-arms at `5 + (-5) = 0`. -/
def examplePeriodicNeg : AlarmSystem :=
  (OSSetPeriodicAlarm 0 (OSCreateAlarm initialSystem 0) 0 3 (-5) none).1

/-- Scenario 4 of the spec: alarms 0 and 1 carry group tag 7 (armed on core
0), alarm 2 carries tag 9 (armed on core 1). -/
def exampleTagged : AlarmSystem :=
  (OSSetAlarmTag
    (OSSetAlarmTag
      (OSSetAlarmTag
        (OSSetPeriodicAlarm 1
          (OSSetPeriodicAlarm 0
            (OSSetPeriodicAlarm 0
              (OSCreateAlarm (OSCreateAlarm (OSCreateAlarm initialSystem 0) 1) 2)
              0 100 0 none).1
            1 200 0 none).1
          2 300 0 none).1
        0 7).1
      1 7).1
    2 9).1

/-! ## Frame lemmas for the state updates -/

theorem updAlarm_alarms_self (s : AlarmSystem) (id : Nat) (a : OSAlarm) :
    (updAlarm s id a).alarms id = a := by
  simp [updAlarm]

theorem updAlarm_alarms_ne (s : AlarmSystem) (id j : Nat) (a : OSAlarm)
    (h : j ≠ id) : (updAlarm s id a).alarms j = s.alarms j := by
  simp [updAlarm, h]

theorem updAlarm_queues (s : AlarmSystem) (id : Nat) (a : OSAlarm) (c : Fin 3) :
    (updAlarm s id a).queues c = s.queues c := rfl

theorem updQueue_queues_self (s : AlarmSystem) (c : Fin 3) (l : List Nat) :
    (updQueue s c l).queues c = l := by
  simp [updQueue]

theorem updQueue_queues (s : AlarmSystem) (c c' : Fin 3) (l : List Nat) :
    (updQueue s c l).queues c' = if c' = c then l else s.queues c' := by
  simp [updQueue]

theorem updQueue_alarms (s : AlarmSystem) (c : Fin 3) (l : List Nat) (j : Nat) :
    (updQueue s c l).alarms j = s.alarms j := rfl

/-! ## Characterisation of `OSCancelAlarmNoLock` -/

theorem cancelNoLock_not_set (s : AlarmSystem) (id : Nat)
    (h : (s.alarms id).state ≠ OSAlarmState.Set) :
    OSCancelAlarmNoLock s id = (s, false, []) := by
  simp [OSCancelAlarmNoLock, h]

theorem cancelNoLock_set_alarm (s : AlarmSystem) (id : Nat)
    (h : (s.alarms id).state = OSAlarmState.Set) :
    (OSCancelAlarmNoLock s id).1.alarms id =
      { s.alarms id with state := OSAlarmState.Cancelled, nextFire := 0,
                         period := 0, threadQueue := [] } := by
  unfold OSCancelAlarmNoLock
  simp only [h, ne_eq, not_true_eq_false, if_false]
  cases hq : (s.alarms id).alarmQueue <;>
    simp [hq, updAlarm_alarms_self, updQueue_alarms]

theorem cancelNoLock_set_bool (s : AlarmSystem) (id : Nat)
    (h : (s.alarms id).state = OSAlarmState.Set) :
    (OSCancelAlarmNoLock s id).2.1 = true := by
  unfold OSCancelAlarmNoLock
  simp only [h, ne_eq, not_true_eq_false, if_false]

theorem cancelNoLock_alarms_ne (s : AlarmSystem) (id j : Nat) (h : j ≠ id) :
    (OSCancelAlarmNoLock s id).1.alarms j = s.alarms j := by
  unfold OSCancelAlarmNoLock
  by_cases hs : (s.alarms id).state = OSAlarmState.Set
  · simp only [hs, ne_eq, not_true_eq_false, if_false]
    cases hq : (s.alarms id).alarmQueue <;>
      simp [hq, updAlarm_alarms_ne _ _ _ _ h, updQueue_alarms]
  · simp [hs]

theorem cancelNoLock_queues (s : AlarmSystem) (id : Nat) (c' : Fin 3) :
    (OSCancelAlarmNoLock s id).1.queues c' =
      if (s.alarms id).state = OSAlarmState.Set ∧
          (s.alarms id).alarmQueue = some c' then
        (s.queues c').filter (fun j => j ≠ id)
      else s.queues c' := by
  unfold OSCancelAlarmNoLock
  by_cases hs : (s.alarms id).state = OSAlarmState.Set
  · simp only [hs, ne_eq, not_true_eq_false, if_false]
    cases hq : (s.alarms id).alarmQueue with
    | none => simp [hq, updAlarm_queues]
    | some c =>
      by_cases hc : c' = c
      · subst hc; simp [hq, updAlarm_queues, updQueue_queues]
      · simp [hq, updAlarm_queues, updQueue_queues, hc, Ne.symm hc]
  · simp [hs]

theorem cancelNoLock_events (s : AlarmSystem) (id : Nat)
    (h : (s.alarms id).state = OSAlarmState.Set) :
    (OSCancelAlarmNoLock s id).2.2 =
      (match (s.alarms id).alarmQueue with
       | some c => [Event.eraseQ c id]
       | none => []) ++ (s.alarms id).threadQueue.map Event.wake := by
  unfold OSCancelAlarmNoLock
  simp only [h, ne_eq, not_true_eq_false, if_false]
  cases hq : (s.alarms id).alarmQueue <;>
    simp [hq, updAlarm_alarms_self, updQueue_alarms]

/-! ## Characterisation of `OSTriggerAlarmNoLock` -/

theorem trigger_alarms_ne (now : Int) (ctx : Nat) (s : AlarmSystem)
    (id j : Nat) (h : j ≠ id) :
    (OSTriggerAlarmNoLock now ctx s id).1.alarms j = s.alarms j := by
  unfold OSTriggerAlarmNoLock
  by_cases hp : (s.alarms id).period ≠ 0
  · simp [hp, updAlarm_alarms_ne _ _ _ _ h]
  · simp only [hp, if_false]
    cases hq : (s.alarms id).alarmQueue <;>
      simp [hq, updAlarm_alarms_ne _ _ _ _ h, updQueue_alarms]

theorem trigger_periodic_alarm (now : Int) (ctx : Nat) (s : AlarmSystem)
    (id : Nat) (hp : (s.alarms id).period ≠ 0) :
    (OSTriggerAlarmNoLock now ctx s id).1.alarms id =
      { s.alarms id with context := some ctx,
                         nextFire := now + (s.alarms id).period,
                         state := OSAlarmState.Set, threadQueue := [] } := by
  unfold OSTriggerAlarmNoLock
  simp [hp, updAlarm_alarms_self]

theorem trigger_periodic_queues (now : Int) (ctx : Nat) (s : AlarmSystem)
    (id : Nat) (hp : (s.alarms id).period ≠ 0) (c : Fin 3) :
    (OSTriggerAlarmNoLock now ctx s id).1.queues c = s.queues c := by
  unfold OSTriggerAlarmNoLock
  simp [hp, updAlarm_queues]

theorem trigger_oneshot_alarm (now : Int) (ctx : Nat) (s : AlarmSystem)
    (id : Nat) (hp : (s.alarms id).period = 0) :
    (OSTriggerAlarmNoLock now ctx s id).1.alarms id =
      { s.alarms id with context := some ctx, nextFire := 0,
                         state := OSAlarmState.None, threadQueue := [] } := by
  unfold OSTriggerAlarmNoLock
  simp only [hp, ne_eq, not_true_eq_false, if_false]
  cases hq : (s.alarms id).alarmQueue <;>
    simp [hq, updAlarm_alarms_self, updQueue_alarms]

theorem trigger_queues (now : Int) (ctx : Nat) (s : AlarmSystem)
    (id : Nat) (c' : Fin 3) :
    (OSTriggerAlarmNoLock now ctx s id).1.queues c' =
      if (s.alarms id).period = 0 ∧ (s.alarms id).alarmQueue = some c' then
        (s.queues c').filter (fun j => j ≠ id)
      else s.queues c' := by
  unfold OSTriggerAlarmNoLock
  by_cases hp : (s.alarms id).period = 0
  · simp only [hp, ne_eq, not_true_eq_false, if_false]
    cases hq : (s.alarms id).alarmQueue with
    | none => simp [hq, updAlarm_queues]
    | some c =>
      by_cases hc : c' = c
      · subst hc; simp [hq, updAlarm_queues, updQueue_queues]
      · simp [hq, updAlarm_queues, updQueue_queues, hc, Ne.symm hc]
  · simp [hp, updAlarm_queues]

theorem trigger_events (now : Int) (ctx : Nat) (s : AlarmSystem) (id : Nat) :
    (OSTriggerAlarmNoLock now ctx s id).2 =
      (if (s.alarms id).period = 0 then
         match (s.alarms id).alarmQueue with
         | some c => [Event.eraseQ c id]
         | none => []
       else []) ++
      (match (s.alarms id).callback with
       | some cb => [Event.lockRelease, Event.callbackInvoke cb id, Event.lockAcquire]
       | none => []) ++
      (s.alarms id).threadQueue.map Event.wake := by
  unfold OSTriggerAlarmNoLock
  by_cases hp : (s.alarms id).period = 0
  · simp only [hp, ne_eq, not_true_eq_false, if_false, if_true]
    cases hq : (s.alarms id).alarmQueue <;>
      cases hcb : (s.alarms id).callback <;>
        simp [hq, hcb, updAlarm_alarms_self, updQueue_alarms]
  · simp only [hp, ne_eq, if_false, ite_false]
    cases hcb : (s.alarms id).callback <;>
      simp [hp, hcb, updAlarm_alarms_self]

/-! ## Characterisation of `OSSetPeriodicAlarm` -/

theorem setPeriodic_bool (core : Fin 3) (s : AlarmSystem) (id : Nat)
    (start interval : Int) (cb : Option Nat) :
    (OSSetPeriodicAlarm core s id start interval cb).2.1 = true := rfl

theorem setPeriodic_alarm (core : Fin 3) (s : AlarmSystem) (id : Nat)
    (start interval : Int) (cb : Option Nat) :
    (OSSetPeriodicAlarm core s id start interval cb).1.alarms id =
      { s.alarms id with nextFire := start, callback := cb, period := interval,
                         context := none, state := OSAlarmState.Set,
                         alarmQueue := some core } := by
  unfold OSSetPeriodicAlarm
  cases hq : (s.alarms id).alarmQueue <;>
    simp [hq, updAlarm_alarms_self, updQueue_alarms]

theorem setPeriodic_alarms_ne (core : Fin 3) (s : AlarmSystem) (id j : Nat)
    (start interval : Int) (cb : Option Nat) (h : j ≠ id) :
    (OSSetPeriodicAlarm core s id start interval cb).1.alarms j = s.alarms j := by
  unfold OSSetPeriodicAlarm
  cases hq : (s.alarms id).alarmQueue <;>
    simp [hq, updAlarm_alarms_ne _ _ _ _ h, updQueue_alarms]

theorem setPeriodic_queues (core : Fin 3) (s : AlarmSystem) (id : Nat)
    (start interval : Int) (cb : Option Nat) (c' : Fin 3) :
    (OSSetPeriodicAlarm core s id start interval cb).1.queues c' =
      (if (s.alarms id).alarmQueue = some c' then
         (s.queues c').filter (fun j => j ≠ id)
       else s.queues c') ++ (if c' = core then [id] else []) := by
  unfold OSSetPeriodicAlarm
  cases hq : (s.alarms id).alarmQueue with
  | none =>
    by_cases hc : c' = core <;>
      simp [hq, updAlarm_queues, updQueue_queues, hc]
  | some c =>
    by_cases hcc : c' = c
    · subst hcc
      by_cases hc : c' = core <;>
        simp [hq, updAlarm_queues, updQueue_queues, hc]
    · by_cases hc : c' = core
      · subst hc
        simp [hq, updAlarm_queues, updQueue_queues, hcc, Ne.symm hcc]
      · simp [hq, updAlarm_queues, updQueue_queues, hc, hcc, Ne.symm hcc]

theorem setPeriodic_events (core : Fin 3) (s : AlarmSystem) (id : Nat)
    (start interval : Int) (cb : Option Nat) :
    (OSSetPeriodicAlarm core s id start interval cb).2.2 =
      [Event.lockAcquire] ++
      (match (s.alarms id).alarmQueue with
       | some c => [Event.eraseQ c id]
       | none => []) ++
      [Event.appendQ core id, Event.setTimer core (some start), Event.lockRelease] := by
  unfold OSSetPeriodicAlarm
  cases hq : (s.alarms id).alarmQueue <;> simp [hq]

/-! ## Claim C9: the field accessors -/

/-- C9 counterexample: `OSGetAlarmUserData` performs no lock operation at
all — its event trace is empty and in particular contains no acquisition of
the alarm lock, contradicting "holds the alarm lock while doing so". -/
theorem claim_C9_counterexample :
    (OSGetAlarmUserData initialSystem 0).2.2 = ([] : List Event) ∧
    Event.lockAcquire ∉ (OSGetAlarmUserData initialSystem 0).2.2 := by
  exact ⟨rfl, by simp [OSGetAlarmUserData]⟩

/-- C9 (amended): `OSSetAlarmTag` and `OSSetAlarmUserData` hold the alarm
lock and write exactly their one field; `OSGetAlarmUserData` reads
`userData` without taking the lock; none of the three touches any other
alarm field, any other alarm, or any queue. -/
theorem claim_C9_accessors (s : AlarmSystem) (id : Nat) (t : Nat) (d : Option Nat) :
    (OSSetAlarmTag s id t).2 = [Event.lockAcquire, Event.lockRelease] ∧
    (OSSetAlarmTag s id t).1.alarms id = { s.alarms id with alarmTag := t } ∧
    (∀ j, j ≠ id → (OSSetAlarmTag s id t).1.alarms j = s.alarms j) ∧
    (∀ c : Fin 3, (OSSetAlarmTag s id t).1.queues c = s.queues c) ∧
    (OSSetAlarmUserData s id d).2 = [Event.lockAcquire, Event.lockRelease] ∧
    (OSSetAlarmUserData s id d).1.alarms id = { s.alarms id with userData := d } ∧
    (∀ j, j ≠ id → (OSSetAlarmUserData s id d).1.alarms j = s.alarms j) ∧
    (∀ c : Fin 3, (OSSetAlarmUserData s id d).1.queues c = s.queues c) ∧
    OSGetAlarmUserData s id = (s, (s.alarms id).userData, []) := by
  refine ⟨rfl, updAlarm_alarms_self _ _ _, ?_, fun c => rfl, rfl,
    updAlarm_alarms_self _ _ _, ?_, fun c => rfl, rfl⟩
  · exact fun j h => updAlarm_alarms_ne _ _ _ _ h
  · exact fun j h => updAlarm_alarms_ne _ _ _ _ h

/-- C9 witness: the amended accessor theorem applied at a concrete state. -/
theorem claim_C9_witness :
    (OSSetAlarmTag initialSystem 0 7).1.alarms 1 = initialSystem.alarms 1 ∧
    (OSSetAlarmUserData initialSystem 0 (some 4)).1.alarms 1 = initialSystem.alarms 1 ∧
    OSGetAlarmUserData initialSystem 0 =
      (initialSystem, (initialSystem.alarms 0).userData, []) := by
  have h := claim_C9_accessors initialSystem 0 7 (some 4)
  exact ⟨h.2.2.1 1 (by decide), h.2.2.2.2.2.2.1 1 (by decide), h.2.2.2.2.2.2.2.2⟩

/-! ## Claim C2: `OSCancelAlarm` -/

/-- C2: cancelling fails and changes nothing unless the alarm is `Set`
(Armed); an Armed alarm is marked `Cancelled` with `nextFire` and `period`
cleared, is unlinked from its back-referenced queue, all waiters are woken,
and the call returns success; a second cancel is a failing no-op. -/
theorem claim_C2_cancel (s : AlarmSystem) (id : Nat) :
    ((s.alarms id).state ≠ OSAlarmState.Set →
       OSCancelAlarm s id = (s, false, [Event.lockAcquire, Event.lockRelease])) ∧
    ((s.alarms id).state = OSAlarmState.Set →
       (OSCancelAlarm s id).2.1 = true ∧
       ((OSCancelAlarm s id).1.alarms id).state = OSAlarmState.Cancelled ∧
       ((OSCancelAlarm s id).1.alarms id).nextFire = 0 ∧
       ((OSCancelAlarm s id).1.alarms id).period = 0 ∧
       (∀ c : Fin 3, (s.alarms id).alarmQueue = some c →
          id ∉ (OSCancelAlarm s id).1.queues c) ∧
       (∀ tid ∈ (s.alarms id).threadQueue,
          Event.wake tid ∈ (OSCancelAlarm s id).2.2) ∧
       (∀ j, j ≠ id → (OSCancelAlarm s id).1.alarms j = s.alarms j) ∧
       (OSCancelAlarm (OSCancelAlarm s id).1 id).2.1 = false ∧
       (OSCancelAlarm (OSCancelAlarm s id).1 id).1 = (OSCancelAlarm s id).1) := by
  constructor
  · intro h
    simp [OSCancelAlarm, cancelNoLock_not_set s id h]
  · intro h
    have halarm := cancelNoLock_set_alarm s id h
    have hcanc : ((OSCancelAlarm s id).1.alarms id).state = OSAlarmState.Cancelled := by
      show ((OSCancelAlarmNoLock s id).1.alarms id).state = OSAlarmState.Cancelled
      rw [halarm]
    have hne : ((OSCancelAlarm s id).1.alarms id).state ≠ OSAlarmState.Set := by
      rw [hcanc]; intro hx; exact OSAlarmState.noConfusion hx
    refine ⟨cancelNoLock_set_bool s id h, hcanc, ?_, ?_, ?_, ?_, ?_, ?_, ?_⟩
    · show ((OSCancelAlarmNoLock s id).1.alarms id).nextFire = 0
      rw [halarm]
    · show ((OSCancelAlarmNoLock s id).1.alarms id).period = 0
      rw [halarm]
    · intro c hc
      show id ∉ (OSCancelAlarmNoLock s id).1.queues c
      rw [cancelNoLock_queues, if_pos ⟨h, hc⟩]
      simp [List.mem_filter]
    · intro tid htid
      show Event.wake tid ∈ [Event.lockAcquire] ++ (OSCancelAlarmNoLock s id).2.2 ++ [Event.lockRelease]
      rw [cancelNoLock_events s id h]
      simp only [List.mem_append, List.mem_map]
      exact Or.inl (Or.inr (Or.inr ⟨tid, htid, rfl⟩))
    · exact fun j hj => cancelNoLock_alarms_ne s id j hj
    · show (OSCancelAlarmNoLock (OSCancelAlarm s id).1 id).2.1 = false
      rw [cancelNoLock_not_set _ _ hne]
    · show (OSCancelAlarmNoLock (OSCancelAlarm s id).1 id).1 = (OSCancelAlarm s id).1
      rw [cancelNoLock_not_set _ _ hne]

/-- C2 witness: cancelling the concrete armed alarm succeeds, marks it
`Cancelled`, unlinks it, wakes the blocked thread, and a second cancel
fails. -/
theorem claim_C2_witness :
    (OSCancelAlarm exampleArmed 0).2.1 = true ∧
    ((OSCancelAlarm exampleArmed 0).1.alarms 0).state = OSAlarmState.Cancelled ∧
    0 ∉ (OSCancelAlarm exampleArmed 0).1.queues 0 ∧
    Event.wake 5 ∈ (OSCancelAlarm exampleArmed 0).2.2 ∧
    (OSCancelAlarm (OSCancelAlarm exampleArmed 0).1 0).2.1 = false := by
  have h := (claim_C2_cancel exampleArmed 0).2 (by decide)
  exact ⟨h.1, h.2.1, h.2.2.2.2.1 0 (by decide), h.2.2.2.2.2.1 5 (by decide),
    h.2.2.2.2.2.2.2.1⟩

/-! ## Claim C6: `OSSetPeriodicAlarm` / `OSSetAlarm` -/

/-- C6: arming sets `nextFire`, `period`, `callback`, clears the callback
context, marks the alarm `Set`, unlinks it from any previously
back-referenced queue, appends it to the executing core's queue, arms that
core's interrupt timer with `nextFire` unconditionally, returns success,
and leaves every other alarm untouched; `OSSetAlarm` is exactly
`OSSetPeriodicAlarm` at `start = now + delay`, `period = 0`. -/
theorem claim_C6_arm (core : Fin 3) (s : AlarmSystem) (id : Nat)
    (start interval : Int) (cb : Option Nat) (now delay : Int) :
    (OSSetPeriodicAlarm core s id start interval cb).2.1 = true ∧
    (OSSetPeriodicAlarm core s id start interval cb).1.alarms id =
      { s.alarms id with nextFire := start, callback := cb, period := interval,
                         context := none, state := OSAlarmState.Set,
                         alarmQueue := some core } ∧
    (∀ c' : Fin 3,
       (OSSetPeriodicAlarm core s id start interval cb).1.queues c' =
         (if (s.alarms id).alarmQueue = some c' then
            (s.queues c').filter (fun j => j ≠ id)
          else s.queues c') ++ (if c' = core then [id] else [])) ∧
    Event.setTimer core (some start) ∈
      (OSSetPeriodicAlarm core s id start interval cb).2.2 ∧
    (∀ j, j ≠ id →
       (OSSetPeriodicAlarm core s id start interval cb).1.alarms j = s.alarms j) ∧
    OSSetAlarm core now s id delay cb =
      OSSetPeriodicAlarm core s id (now + delay) 0 cb := by
  refine ⟨setPeriodic_bool core s id start interval cb,
    setPeriodic_alarm core s id start interval cb,
    setPeriodic_queues core s id start interval cb, ?_,
    fun j h => setPeriodic_alarms_ne core s id j start interval cb h, rfl⟩
  rw [setPeriodic_events]
  cases (s.alarms id).alarmQueue <;> simp

/-- C6 witness: arming a fresh alarm on the initial system. -/
theorem claim_C6_witness :
    (OSSetPeriodicAlarm 0 initialSystem 0 100 0 none).2.1 = true ∧
    (OSSetPeriodicAlarm 0 initialSystem 0 100 0 none).1.alarms 1 =
      initialSystem.alarms 1 ∧
    Event.setTimer 0 (some 100) ∈
      (OSSetPeriodicAlarm 0 initialSystem 0 100 0 none).2.2 := by
  have h := claim_C6_arm 0 initialSystem 0 100 0 none 60 40
  exact ⟨h.1, h.2.2.2.2.1 1 (by decide), h.2.2.2.1⟩

/-! ## Claim C10: the stale owner-queue back-reference -/

/-- C10: a successful cancel and a one-shot fire both leave `alarmQueue`
pointing at the queue the alarm was just unlinked from, and the next
arming performs an erase against that old queue even when the alarm is no
longer a member of it. -/
theorem claim_C10_stale_backref (s : AlarmSystem) (id : Nat) (now : Int)
    (ctx : Nat) (core : Fin 3) (start interval : Int) (cb : Option Nat)
    (q : Fin 3) :
    ((s.alarms id).state = OSAlarmState.Set → (s.alarms id).alarmQueue = some q →
       ((OSCancelAlarm s id).1.alarms id).alarmQueue = some q ∧
       id ∉ (OSCancelAlarm s id).1.queues q) ∧
    ((s.alarms id).period = 0 → (s.alarms id).alarmQueue = some q →
       ((OSTriggerAlarmNoLock now ctx s id).1.alarms id).alarmQueue = some q ∧
       id ∉ (OSTriggerAlarmNoLock now ctx s id).1.queues q) ∧
    ((s.alarms id).alarmQueue = some q → id ∉ s.queues q →
       Event.eraseQ q id ∈ (OSSetPeriodicAlarm core s id start interval cb).2.2) := by
  refine ⟨?_, ?_, ?_⟩
  · intro hs hq
    constructor
    · show ((OSCancelAlarmNoLock s id).1.alarms id).alarmQueue = some q
      rw [cancelNoLock_set_alarm s id hs]
      exact hq
    · show id ∉ (OSCancelAlarmNoLock s id).1.queues q
      rw [cancelNoLock_queues, if_pos ⟨hs, hq⟩]
      simp [List.mem_filter]
  · intro hp hq
    constructor
    · rw [trigger_oneshot_alarm now ctx s id hp]
      exact hq
    · rw [trigger_queues, if_pos ⟨hp, hq⟩]
      simp [List.mem_filter]
  · intro hq _
    rw [setPeriodic_events]
    simp [hq]

/-- C10 witness: cancel the concrete armed alarm, observe the stale
back-reference, then re-arm and observe the erase against the old queue. -/
theorem claim_C10_witness :
    ((OSCancelAlarm exampleArmed 0).1.alarms 0).alarmQueue = some 0 ∧
    0 ∉ (OSCancelAlarm exampleArmed 0).1.queues 0 ∧
    Event.eraseQ 0 0 ∈
      (OSSetPeriodicAlarm 1 (OSCancelAlarm exampleArmed 0).1 0 200 0 none).2.2 := by
  have h₁ := (claim_C10_stale_backref exampleArmed 0 0 0 1 200 0 none 0).1
    (by decide) (by decide)
  have h₂ := (claim_C10_stale_backref (OSCancelAlarm exampleArmed 0).1 0 0 0 1
    200 0 none 0).2.2 (by decide) (by decide)
  exact ⟨h₁.1, h₁.2, h₂⟩

/-! ## Claim C3: `OSWaitAlarm` -/

/-- C3: on a valid alarm, `OSWaitAlarm` returns failure immediately without
suspending when the state is not `Set`; when it suspends, the woken thread
returns success exactly when the state it re-reads is not `Cancelled`; and
after any `OSCancelAlarm` a wait returns failure immediately. -/
theorem claim_C3_wait (s : AlarmSystem) (tid : Nat) (id : Nat)
    (htag : (s.alarms id).tag = OSAlarm.Tag) :
    ((s.alarms id).state ≠ OSAlarmState.Set →
       OSWaitAlarmEntry s tid id =
         (s, WaitOutcome.immediate false,
          [Event.schedLock, Event.lockAcquire, Event.lockRelease,
           Event.schedUnlock])) ∧
    ((s.alarms id).state = OSAlarmState.Set →
       (OSWaitAlarmEntry s tid id).2.1 = WaitOutcome.suspended) ∧
    (∀ s' : AlarmSystem,
       ((OSWaitAlarmResume s' id).1 = true ↔
         (s'.alarms id).state ≠ OSAlarmState.Cancelled)) ∧
    (∀ tid' : Nat,
       (OSWaitAlarmEntry (OSCancelAlarm s id).1 tid' id).2.1 =
         WaitOutcome.immediate false) := by
  refine ⟨?_, ?_, ?_, ?_⟩
  · intro hs
    simp [OSWaitAlarmEntry, htag, hs]
  · intro hs
    simp [OSWaitAlarmEntry, htag, hs]
  · intro s'
    by_cases hc : (s'.alarms id).state = OSAlarmState.Cancelled <;>
      simp [OSWaitAlarmResume, hc]
  · intro tid'
    by_cases hs : (s.alarms id).state = OSAlarmState.Set
    · have halarm := cancelNoLock_set_alarm s id hs
      have htag' : (((OSCancelAlarm s id).1).alarms id).tag = OSAlarm.Tag := by
        show ((OSCancelAlarmNoLock s id).1.alarms id).tag = OSAlarm.Tag
        rw [halarm]; exact htag
      have hst : (((OSCancelAlarm s id).1).alarms id).state ≠ OSAlarmState.Set := by
        show ((OSCancelAlarmNoLock s id).1.alarms id).state ≠ OSAlarmState.Set
        rw [halarm]; intro hx; exact OSAlarmState.noConfusion hx
      simp [OSWaitAlarmEntry, htag', hst]
    · have heq : (OSCancelAlarm s id).1 = s := by
        show (OSCancelAlarmNoLock s id).1 = s
        rw [cancelNoLock_not_set s id hs]
      rw [heq]
      simp [OSWaitAlarmEntry, htag, hs]

/-- C3 witness: on the concrete armed alarm the wait suspends; after the
cancel a new wait fails immediately; a woken waiter observing `Cancelled`
fails. -/
theorem claim_C3_witness :
    (OSWaitAlarmEntry exampleArmed 6 0).2.1 = WaitOutcome.suspended ∧
    (OSWaitAlarmEntry (OSCancelAlarm exampleArmed 0).1 6 0).2.1 =
      WaitOutcome.immediate false ∧
    ((OSWaitAlarmResume (OSCancelAlarm exampleArmed 0).1 0).1 = true ↔
      (((OSCancelAlarm exampleArmed 0).1.alarms 0).state ≠ OSAlarmState.Cancelled)) := by
  have h := claim_C3_wait exampleArmed 6 0 (by decide)
  exact ⟨h.2.1 (by decide), h.2.2.2 6, h.2.2.1 (OSCancelAlarm exampleArmed 0).1⟩

/-! ## Claim C8: identity-tag validation -/

theorem assertFail_not_cancelNoLock (s : AlarmSystem) (id : Nat) :
    Event.assertFail ∉ (OSCancelAlarmNoLock s id).2.2 := by
  by_cases hs : (s.alarms id).state = OSAlarmState.Set
  · rw [cancelNoLock_events s id hs]
    cases (s.alarms id).alarmQueue <;> simp
  · rw [cancelNoLock_not_set s id hs]
    simp

theorem assertFail_not_cancelTagList (t : Nat) (ids : List Nat)
    (s : AlarmSystem) :
    Event.assertFail ∉ (cancelTagInQueue t ids s).2 := by
  induction ids generalizing s with
  | nil => simp [cancelTagInQueue]
  | cons id rest ih =>
    simp only [cancelTagInQueue, List.mem_append]
    intro h
    rcases h with h | h
    · by_cases ht : (s.alarms id).alarmTag = t
      · simp only [ht, if_true] at h
        exact assertFail_not_cancelNoLock s id h
      · simp [ht] at h
    · by_cases ht : (s.alarms id).alarmTag = t
      · simp only [ht, if_true] at h
        exact ih _ h
      · simp only [ht, if_false] at h
        exact ih _ h

theorem assertFail_not_trigger (now : Int) (ctx : Nat) (s : AlarmSystem)
    (id : Nat) :
    Event.assertFail ∉ (OSTriggerAlarmNoLock now ctx s id).2 := by
  rw [trigger_events]
  by_cases hp : (s.alarms id).period = 0 <;>
    cases hq : (s.alarms id).alarmQueue <;>
      cases hcb : (s.alarms id).callback <;>
        simp [hp, hq, hcb]

theorem assertFail_not_checkList (now : Int) (ctx : Nat) (ids : List Nat)
    (s : AlarmSystem) (next : Option Int) :
    Event.assertFail ∉ (OSCheckList now ctx ids s next).2.2 := by
  induction ids generalizing s next with
  | nil => simp [OSCheckList]
  | cons id rest ih =>
    simp only [OSCheckList, List.mem_append]
    intro h
    rcases h with h | h
    · by_cases hdue : (s.alarms id).nextFire ≤ now ∧
          (s.alarms id).state ≠ OSAlarmState.Cancelled
      · rw [if_pos hdue] at h
        exact assertFail_not_trigger now ctx s id h
      · rw [if_neg hdue] at h
        simp at h
    · by_cases hdue : (s.alarms id).nextFire ≤ now ∧
          (s.alarms id).state ≠ OSAlarmState.Cancelled
      · rw [if_pos hdue] at h
        exact ih _ _ h
      · rw [if_neg hdue] at h
        exact ih _ _ h

/-- C8 counterexample: `OSCancelAlarm` on a record whose identity tag does
not match the sentinel does not fail fast — no assertion fires and the call
proceeds to cancel the alarm and report success. -/
theorem claim_C8_counterexample :
    (exampleForeign.alarms 0).tag ≠ OSAlarm.Tag ∧
    (OSCancelAlarm exampleForeign 0).2.1 = true ∧
    ((OSCancelAlarm exampleForeign 0).1.alarms 0).state =
      OSAlarmState.Cancelled ∧
    Event.assertFail ∉ (OSCancelAlarm exampleForeign 0).2.2 := by
  refine ⟨by decide, by decide, by decide, ?_⟩
  intro h
  simp only [OSCancelAlarm, List.mem_append] at h
  rcases h with (h | h) | h
  · simp at h
  · exact assertFail_not_cancelNoLock exampleForeign 0 h
  · simp at h

/-- C8 (amended): only `OSWaitAlarm` validates the identity tag, failing
fast on mismatch; every other entry point performs no identity-tag check
and proceeds without any assertion. -/
theorem claim_C8_identity_check (s : AlarmSystem) (tid id : Nat) (t : Nat)
    (core : Fin 3) (now : Int) (ctx : Nat) (start interval : Int)
    (cb : Option Nat) (ud : Option Nat) :
    ((s.alarms id).tag ≠ OSAlarm.Tag →
       (OSWaitAlarmEntry s tid id).2.1 = WaitOutcome.fatal ∧
       Event.assertFail ∈ (OSWaitAlarmEntry s tid id).2.2) ∧
    Event.assertFail ∉ (OSCancelAlarm s id).2.2 ∧
    Event.assertFail ∉ (OSCancelAlarms t s).2 ∧
    Event.assertFail ∉ (OSSetPeriodicAlarm core s id start interval cb).2.2 ∧
    Event.assertFail ∉ (OSSetAlarmTag s id t).2 ∧
    Event.assertFail ∉ (OSSetAlarmUserData s id ud).2 ∧
    Event.assertFail ∉ (OSGetAlarmUserData s id).2.2 ∧
    Event.assertFail ∉ (OSCheckAlarms core now ctx s).2 := by
  refine ⟨?_, ?_, ?_, ?_, ?_, ?_, ?_, ?_⟩
  · intro h
    constructor <;> simp [OSWaitAlarmEntry, h]
  · intro h
    simp only [OSCancelAlarm, List.mem_append] at h
    rcases h with (h | h) | h
    · simp at h
    · exact assertFail_not_cancelNoLock s id h
    · simp at h
  · intro h
    simp only [OSCancelAlarms, List.mem_append] at h
    rcases h with ((((h | h) | h) | h) | h)
    · simp at h
    · exact assertFail_not_cancelTagList _ _ _ h
    · exact assertFail_not_cancelTagList _ _ _ h
    · exact assertFail_not_cancelTagList _ _ _ h
    · simp at h
  · rw [setPeriodic_events]
    cases (s.alarms id).alarmQueue <;> simp
  · simp [OSSetAlarmTag]
  · simp [OSSetAlarmUserData]
  · simp [OSGetAlarmUserData]
  · intro h
    simp only [OSCheckAlarms, List.mem_append] at h
    rcases h with (h | h) | h
    · simp at h
    · exact assertFail_not_checkList _ _ _ _ _ h
    · simp at h

/-- C8 witness: a foreign-tagged record makes `OSWaitAlarm` fail fast,
while the cancel path on the very same record runs assertion-free. -/
theorem claim_C8_witness :
    (OSWaitAlarmEntry exampleForeign 1 0).2.1 = WaitOutcome.fatal ∧
    Event.assertFail ∉ (OSCancelAlarm exampleForeign 0).2.2 ∧
    Event.assertFail ∉ (OSCheckAlarms 0 100 9 exampleForeign).2 := by
  have h := claim_C8_identity_check exampleForeign 1 0 3 0 100 9 50 0 none none
  exact ⟨(h.1 (by decide)).1, h.2.1, h.2.2.2.2.2.2.2⟩

/-! ## Claim C1: firing of due alarms by the trigger engine -/

theorem mem_filter_ne (l : List Nat) (j id : Nat) (h : j ≠ id) :
    (j ∈ l.filter (fun x => x ≠ id)) ↔ j ∈ l := by
  simp [List.mem_filter, h]

theorem not_mem_filter_self (l : List Nat) (id : Nat) :
    id ∉ l.filter (fun x => x ≠ id) := by
  simp [List.mem_filter]

theorem checkList_alarms_notMem (now : Int) (ctx : Nat) (ids : List Nat)
    (j : Nat) :
    ∀ (s : AlarmSystem) (next : Option Int), j ∉ ids →
      (OSCheckList now ctx ids s next).1.alarms j = s.alarms j := by
  induction ids with
  | nil => intro s next _; rfl
  | cons id rest ih =>
    intro s next hj
    have hne : j ≠ id := fun h => hj (h ▸ List.mem_cons_self id rest)
    have hrest : j ∉ rest := fun h => hj (List.mem_cons_of_mem _ h)
    simp only [OSCheckList]
    by_cases hdue : (s.alarms id).nextFire ≤ now ∧
        (s.alarms id).state ≠ OSAlarmState.Cancelled
    · rw [if_pos hdue, ih _ _ hrest]
      exact trigger_alarms_ne now ctx s id j hne
    · rw [if_neg hdue, ih _ _ hrest]

theorem checkList_mem_notMem (now : Int) (ctx : Nat) (ids : List Nat)
    (j : Nat) :
    ∀ (s : AlarmSystem) (next : Option Int) (c : Fin 3), j ∉ ids →
      ((j ∈ (OSCheckList now ctx ids s next).1.queues c) ↔ j ∈ s.queues c) := by
  induction ids with
  | nil => intro s next c _; exact Iff.rfl
  | cons id rest ih =>
    intro s next c hj
    have hne : j ≠ id := fun h => hj (h ▸ List.mem_cons_self id rest)
    have hrest : j ∉ rest := fun h => hj (List.mem_cons_of_mem _ h)
    simp only [OSCheckList]
    by_cases hdue : (s.alarms id).nextFire ≤ now ∧
        (s.alarms id).state ≠ OSAlarmState.Cancelled
    · rw [if_pos hdue, ih _ _ _ hrest, trigger_queues]
      by_cases hif : (s.alarms id).period = 0 ∧ (s.alarms id).alarmQueue = some c
      · rw [if_pos hif]
        exact mem_filter_ne _ _ _ hne
      · rw [if_neg hif]
    · rw [if_neg hdue, ih _ _ _ hrest]

theorem checkList_fire_extract (now : Int) (ctx : Nat) (ids : List Nat)
    (id : Nat) :
    ∀ (s : AlarmSystem) (next : Option Int), id ∈ ids → ids.Nodup →
      (s.alarms id).nextFire ≤ now →
      (s.alarms id).state ≠ OSAlarmState.Cancelled →
      ∃ s₁ : AlarmSystem,
        s₁.alarms id = s.alarms id ∧
        (∀ c : Fin 3, (id ∈ s₁.queues c) ↔ id ∈ s.queues c) ∧
        (OSCheckList now ctx ids s next).1.alarms id =
          (OSTriggerAlarmNoLock now ctx s₁ id).1.alarms id ∧
        (∀ c : Fin 3, (id ∈ (OSCheckList now ctx ids s next).1.queues c) ↔
           id ∈ (OSTriggerAlarmNoLock now ctx s₁ id).1.queues c) ∧
        (∀ e, e ∈ (OSTriggerAlarmNoLock now ctx s₁ id).2 →
           e ∈ (OSCheckList now ctx ids s next).2.2) := by
  induction ids with
  | nil => intro s next h; exact absurd h (List.not_mem_nil id)
  | cons idh rest ih =>
    intro s next hmem hnodup hdue hnc
    by_cases he : idh = id
    · subst he
      have hrest : idh ∉ rest := (List.nodup_cons.mp hnodup).1
      simp only [OSCheckList]
      rw [if_pos ⟨hdue, hnc⟩]
      refine ⟨s, rfl, fun c => Iff.rfl,
        checkList_alarms_notMem now ctx rest idh _ _ hrest,
        fun c => checkList_mem_notMem now ctx rest idh _ _ c hrest,
        fun e hee => ?_⟩
      exact List.mem_append.mpr (Or.inl hee)
    · have hne : id ≠ idh := fun h => he h.symm
      have hmem' : id ∈ rest := by
        rcases List.mem_cons.mp hmem with h | h
        · exact absurd h hne
        · exact h
      have hnodup' := (List.nodup_cons.mp hnodup).2
      simp only [OSCheckList]
      by_cases hdue' : (s.alarms idh).nextFire ≤ now ∧
          (s.alarms idh).state ≠ OSAlarmState.Cancelled
      · rw [if_pos hdue']
        have hpres : (OSTriggerAlarmNoLock now ctx s idh).1.alarms id = s.alarms id :=
          trigger_alarms_ne now ctx s idh id hne
        obtain ⟨s₁, h₁, h₂, h₃, h₄, h₅⟩ :=
          ih (OSTriggerAlarmNoLock now ctx s idh).1 _ hmem' hnodup'
            (by rw [hpres]; exact hdue) (by rw [hpres]; exact hnc)
        refine ⟨s₁, by rw [h₁, hpres], fun c => ?_, h₃, h₄,
          fun e hee => List.mem_append.mpr (Or.inr (h₅ e hee))⟩
        rw [h₂ c, trigger_queues]
        by_cases hif : (s.alarms idh).period = 0 ∧
            (s.alarms idh).alarmQueue = some c
        · rw [if_pos hif]
          exact mem_filter_ne _ _ _ hne
        · rw [if_neg hif]
      · rw [if_neg hdue']
        obtain ⟨s₁, h₁, h₂, h₃, h₄, h₅⟩ :=
          ih s _ hmem' hnodup' hdue hnc
        exact ⟨s₁, h₁, h₂, h₃, h₄,
          fun e hee => List.mem_append.mpr (Or.inr (h₅ e hee))⟩

/-- C1: every alarm in the scanned queue that is due (`nextFire ≤ now`) and
not `Cancelled` fires: its callback context is set to the supplied context;
a periodic alarm re-arms at `now + period`, stays `Set` and stays queued; a
one-shot alarm has `nextFire` cleared, becomes `None` (Inactive) and is
unlinked; and in either case every thread of its wait set is woken and the
wait set is emptied. -/
theorem claim_C1_trigger_fires (s : AlarmSystem) (core : Fin 3) (now : Int)
    (ctx : Nat) (id : Nat)
    (hmem : id ∈ s.queues core) (hnodup : (s.queues core).Nodup)
    (hq : (s.alarms id).alarmQueue = some core)
    (hdue : (s.alarms id).nextFire ≤ now)
    (hnc : (s.alarms id).state ≠ OSAlarmState.Cancelled) :
    ((OSCheckAlarms core now ctx s).1.alarms id).context = some ctx ∧
    ((s.alarms id).period ≠ 0 →
       ((OSCheckAlarms core now ctx s).1.alarms id).nextFire =
         now + (s.alarms id).period ∧
       ((OSCheckAlarms core now ctx s).1.alarms id).state = OSAlarmState.Set ∧
       id ∈ (OSCheckAlarms core now ctx s).1.queues core) ∧
    ((s.alarms id).period = 0 →
       ((OSCheckAlarms core now ctx s).1.alarms id).nextFire = 0 ∧
       ((OSCheckAlarms core now ctx s).1.alarms id).state = OSAlarmState.None ∧
       id ∉ (OSCheckAlarms core now ctx s).1.queues core) ∧
    (∀ tid ∈ (s.alarms id).threadQueue,
       Event.wake tid ∈ (OSCheckAlarms core now ctx s).2) ∧
    ((OSCheckAlarms core now ctx s).1.alarms id).threadQueue = [] := by
  obtain ⟨s₁, h₁, h₂, h₃, h₄, h₅⟩ :=
    checkList_fire_extract now ctx (s.queues core) id s none hmem hnodup hdue hnc
  have hstate1 : (OSCheckAlarms core now ctx s).1 =
      (OSCheckList now ctx (s.queues core) s none).1 := rfl
  have hev : ∀ e, e ∈ (OSCheckList now ctx (s.queues core) s none).2.2 →
      e ∈ (OSCheckAlarms core now ctx s).2 := by
    intro e hein
    show e ∈ [Event.schedLock, Event.lockAcquire] ++
      (OSCheckList now ctx (s.queues core) s none).2.2 ++ _
    simp only [List.mem_append]
    exact Or.inl (Or.inr hein)
  refine ⟨?_, ?_, ?_, ?_, ?_⟩
  · rw [hstate1, h₃]
    by_cases hp : (s₁.alarms id).period ≠ 0
    · rw [trigger_periodic_alarm now ctx s₁ id hp]
    · rw [trigger_oneshot_alarm now ctx s₁ id (not_not.mp hp)]
  · intro hp
    have hp1 : (s₁.alarms id).period ≠ 0 := by rw [h₁]; exact hp
    refine ⟨?_, ?_, ?_⟩
    · rw [hstate1, h₃, trigger_periodic_alarm now ctx s₁ id hp1]
      show now + (s₁.alarms id).period = now + (s.alarms id).period
      rw [h₁]
    · rw [hstate1, h₃, trigger_periodic_alarm now ctx s₁ id hp1]
    · rw [hstate1]
      refine (h₄ core).mpr ?_
      rw [trigger_periodic_queues now ctx s₁ id hp1]
      exact (h₂ core).mpr hmem
  · intro hp
    have hp1 : (s₁.alarms id).period = 0 := by rw [h₁]; exact hp
    have hq1 : (s₁.alarms id).alarmQueue = some core := by rw [h₁]; exact hq
    refine ⟨?_, ?_, ?_⟩
    · rw [hstate1, h₃, trigger_oneshot_alarm now ctx s₁ id hp1]
    · rw [hstate1, h₃, trigger_oneshot_alarm now ctx s₁ id hp1]
    · rw [hstate1]
      intro hc
      have := (h₄ core).mp hc
      rw [trigger_queues, if_pos ⟨hp1, hq1⟩] at this
      exact not_mem_filter_self _ _ this
  · intro tid htid
    have htid1 : tid ∈ (s₁.alarms id).threadQueue := by rw [h₁]; exact htid
    refine hev _ (h₅ _ ?_)
    rw [trigger_events]
    simp only [List.mem_append, List.mem_map]
    exact Or.inr ⟨tid, htid1, rfl⟩
  · rw [hstate1, h₃]
    by_cases hp : (s₁.alarms id).period ≠ 0
    · rw [trigger_periodic_alarm now ctx s₁ id hp]
    · rw [trigger_oneshot_alarm now ctx s₁ id (not_not.mp hp)]

/-- C1 witness: the one-shot armed alarm with a waiter fires at `now = 150`:
context stored, state becomes Inactive, alarm unlinked, waiter woken. -/
theorem claim_C1_witness :
    ((OSCheckAlarms 0 150 7 exampleArmed).1.alarms 0).context = some 7 ∧
    ((OSCheckAlarms 0 150 7 exampleArmed).1.alarms 0).nextFire = 0 ∧
    ((OSCheckAlarms 0 150 7 exampleArmed).1.alarms 0).state = OSAlarmState.None ∧
    0 ∉ (OSCheckAlarms 0 150 7 exampleArmed).1.queues 0 ∧
    Event.wake 5 ∈ (OSCheckAlarms 0 150 7 exampleArmed).2 := by
  have h := claim_C1_trigger_fires exampleArmed 0 150 7 0 (by decide) (by decide)
    (by decide) (by decide) (by decide)
  have h0 := h.2.2.1 (by decide)
  exact ⟨h.1, h0.1, h0.2.1, h0.2.2, h.2.2.2.1 5 (by decide)⟩

/-! ## Claim C4: re-arming of the per-core interrupt timer -/

theorem minOpt_ne_none (acc : Option Int) (v : Int) : minOpt acc v ≠ none := by
  cases acc with
  | none => simp [minOpt]
  | some w =>
    by_cases h : v < w <;> simp [minOpt, h]

theorem minOpt_spec (acc : Option Int) (v : Int) :
    ∃ w', minOpt acc v = some w' ∧ w' ≤ v ∧
      (∀ w, acc = some w → w' ≤ w) ∧ (w' = v ∨ acc = some w') := by
  cases acc with
  | none => exact ⟨v, rfl, le_refl v, fun w h => Option.noConfusion h, Or.inl rfl⟩
  | some w =>
    by_cases h : v < w
    · refine ⟨v, by simp [minOpt, h], le_refl v, ?_, Or.inl rfl⟩
      intro w0 hw0
      cases hw0
      exact le_of_lt h
    · refine ⟨w, by simp [minOpt, h], not_lt.mp h, ?_, Or.inr rfl⟩
      intro w0 hw0
      cases hw0
      exact le_refl w

theorem foldl_minOpt_none (l : List Int) :
    ∀ acc : Option Int, l.foldl minOpt acc = none ↔ (l = [] ∧ acc = none) := by
  induction l with
  | nil => intro acc; simp [List.foldl]
  | cons v t ih =>
    intro acc
    simp only [List.foldl]
    rw [ih]
    constructor
    · rintro ⟨-, h⟩
      exact absurd h (minOpt_ne_none acc v)
    · rintro ⟨h, -⟩
      exact List.noConfusion h

theorem foldl_minOpt_some (l : List Int) :
    ∀ (acc : Option Int) (m : Int), l.foldl minOpt acc = some m →
      (∀ x ∈ l, m ≤ x) ∧ (∀ w, acc = some w → m ≤ w) ∧ (m ∈ l ∨ acc = some m) := by
  induction l with
  | nil =>
    intro acc m h
    exact ⟨by simp, fun w hw => by rw [hw] at h; cases h; exact le_refl m,
      Or.inr h⟩
  | cons v t ih =>
    intro acc m h
    simp only [List.foldl] at h
    obtain ⟨hall, hacc', hmem'⟩ := ih (minOpt acc v) m h
    obtain ⟨w', hw', hw'v, hw'acc, hw'or⟩ := minOpt_spec acc v
    have hmw' : m ≤ w' := hacc' w' hw'
    refine ⟨?_, ?_, ?_⟩
    · intro x hx
      rcases List.mem_cons.mp hx with hx | hx
      · subst hx; exact le_trans hmw' hw'v
      · exact hall x hx
    · intro w hw
      exact le_trans hmw' (hw'acc w hw)
    · rcases hmem' with hm | hm
      · exact Or.inl (List.mem_cons_of_mem _ hm)
      · rw [hw'] at hm
        cases hm
        rcases hw'or with h1 | h1
        · exact Or.inl (h1 ▸ List.mem_cons_self _ _)
        · exact Or.inr h1

theorem checkList_min_eq (now : Int) (ctx : Nat) (ids : List Nat) :
    ∀ (s : AlarmSystem) (next : Option Int), ids.Nodup →
      (OSCheckList now ctx ids s next).2.1 =
        (ids.filterMap
          (fun j => contribOf ((OSCheckList now ctx ids s next).1.alarms j))).foldl
          minOpt next := by
  induction ids with
  | nil => intro s next _; rfl
  | cons id rest ih =>
    intro s next hnodup
    have hid : id ∉ rest := (List.nodup_cons.mp hnodup).1
    have hrest := (List.nodup_cons.mp hnodup).2
    simp only [OSCheckList, List.filterMap_cons]
    by_cases hdue : (s.alarms id).nextFire ≤ now ∧
        (s.alarms id).state ≠ OSAlarmState.Cancelled
    · rw [if_pos hdue]
      have hfin : (OSCheckList now ctx rest (OSTriggerAlarmNoLock now ctx s id).1
            (if ((OSTriggerAlarmNoLock now ctx s id).1.alarms id).state = OSAlarmState.Set ∧
                ((OSTriggerAlarmNoLock now ctx s id).1.alarms id).nextFire ≠ 0 then
               minOpt next ((OSTriggerAlarmNoLock now ctx s id).1.alarms id).nextFire
             else next)).1.alarms id =
          (OSTriggerAlarmNoLock now ctx s id).1.alarms id :=
        checkList_alarms_notMem now ctx rest id _ _ hid
      rw [hfin]
      by_cases hc : ((OSTriggerAlarmNoLock now ctx s id).1.alarms id).state =
          OSAlarmState.Set ∧ ((OSTriggerAlarmNoLock now ctx s id).1.alarms id).nextFire ≠ 0
      · rw [if_pos hc]
        have : contribOf ((OSTriggerAlarmNoLock now ctx s id).1.alarms id) =
            some ((OSTriggerAlarmNoLock now ctx s id).1.alarms id).nextFire := by
          simp [contribOf, hc]
        rw [this]
        simp only [List.foldl]
        exact ih _ _ hrest
      · rw [if_neg hc]
        have : contribOf ((OSTriggerAlarmNoLock now ctx s id).1.alarms id) = none := by
          simp only [contribOf, if_neg hc]
        rw [this]
        exact ih _ _ hrest
    · rw [if_neg hdue]
      have hfin : (OSCheckList now ctx rest s
            (if (s.alarms id).state = OSAlarmState.Set ∧ (s.alarms id).nextFire ≠ 0 then
               minOpt next (s.alarms id).nextFire
             else next)).1.alarms id = s.alarms id :=
        checkList_alarms_notMem now ctx rest id _ _ hid
      rw [hfin]
      by_cases hc : (s.alarms id).state = OSAlarmState.Set ∧ (s.alarms id).nextFire ≠ 0
      · rw [if_pos hc]
        have : contribOf (s.alarms id) = some (s.alarms id).nextFire := by
          simp [contribOf, hc]
        rw [this]
        simp only [List.foldl]
        exact ih _ _ hrest
      · rw [if_neg hc]
        have : contribOf (s.alarms id) = none := by
          simp only [contribOf, if_neg hc]
        rw [this]
        exact ih _ _ hrest

theorem checkList_queues_subset (now : Int) (ctx : Nat) (ids : List Nat)
    (j : Nat) :
    ∀ (s : AlarmSystem) (next : Option Int) (c : Fin 3),
      j ∈ (OSCheckList now ctx ids s next).1.queues c → j ∈ s.queues c := by
  induction ids with
  | nil => intro s next c h; exact h
  | cons id rest ih =>
    intro s next c h
    simp only [OSCheckList] at h
    by_cases hdue : (s.alarms id).nextFire ≤ now ∧
        (s.alarms id).state ≠ OSAlarmState.Cancelled
    · rw [if_pos hdue] at h
      have h1 := ih _ _ _ h
      rw [trigger_queues] at h1
      by_cases hif : (s.alarms id).period = 0 ∧ (s.alarms id).alarmQueue = some c
      · rw [if_pos hif] at h1
        exact List.mem_of_mem_filter h1
      · rw [if_neg hif] at h1
        exact h1
    · rw [if_neg hdue] at h
      exact ih _ _ _ h

theorem checkList_set_stays (now : Int) (ctx : Nat) (ids : List Nat)
    (j : Nat) :
    ∀ (s : AlarmSystem) (next : Option Int) (c : Fin 3), ids.Nodup →
      j ∈ s.queues c →
      ((OSCheckList now ctx ids s next).1.alarms j).state = OSAlarmState.Set →
      j ∈ (OSCheckList now ctx ids s next).1.queues c := by
  induction ids with
  | nil => intro s next c _ hj _; exact hj
  | cons id rest ih =>
    intro s next c hnodup hj hset
    have hid : id ∉ rest := (List.nodup_cons.mp hnodup).1
    have hrest := (List.nodup_cons.mp hnodup).2
    simp only [OSCheckList] at hset ⊢
    by_cases hdue : (s.alarms id).nextFire ≤ now ∧
        (s.alarms id).state ≠ OSAlarmState.Cancelled
    · rw [if_pos hdue] at hset ⊢
      by_cases he : j = id
      · subst he
        by_cases hp : (s.alarms j).period = 0
        · exfalso
          rw [checkList_alarms_notMem now ctx rest j _ _ hid,
            trigger_oneshot_alarm now ctx s j hp] at hset
          exact OSAlarmState.noConfusion hset
        · refine (checkList_mem_notMem now ctx rest j _ _ c hid).mpr ?_
          rw [trigger_periodic_queues now ctx s j hp]
          exact hj
      · refine ih _ _ _ hrest ?_ hset
        rw [trigger_queues]
        by_cases hif : (s.alarms id).period = 0 ∧ (s.alarms id).alarmQueue = some c
        · rw [if_pos hif]
          exact (mem_filter_ne _ _ _ he).mpr hj
        · rw [if_neg hif]
          exact hj
    · rw [if_neg hdue] at hset ⊢
      exact ih _ _ _ hrest hj hset

/-- C4 counterexample: arm alarm 0 periodic with first fire 3 and period
-5, then run the trigger engine at `now = 5`.  The alarm fires, re-arms at
`5 + (-5) = 0`, and is left `Set` (Armed) in the queue — yet the interrupt
timer is re-armed to "never", because line 222 only counts alarms whose
`nextFire` is non-null.  This contradicts "the minimum nextFireTime among
all alarms left in state Armed". -/
theorem claim_C4_counterexample :
    ((OSCheckAlarms 0 5 9 examplePeriodicNeg).1.alarms 0).state =
      OSAlarmState.Set ∧
    0 ∈ (OSCheckAlarms 0 5 9 examplePeriodicNeg).1.queues 0 ∧
    ((OSCheckAlarms 0 5 9 examplePeriodicNeg).1.alarms 0).nextFire = 0 ∧
    (OSCheckAlarms 0 5 9 examplePeriodicNeg).2.getLast? =
      some (Event.setTimer 0 none) := by
  refine ⟨by decide, by decide, by decide, by decide⟩

/-- C4 (amended): after the scan the engine unconditionally re-arms this
core's timer (the final primitive call of every invocation) with the
minimum `nextFire` over the alarms left `Set` in the queue *with non-null
`nextFire`* (`contribOf`), or "never" (`none`) when no such alarm remains
— even on invocations where nothing fired. -/
theorem claim_C4_rearm_timer (s : AlarmSystem) (core : Fin 3) (now : Int)
    (ctx : Nat) (hnodup : (s.queues core).Nodup) :
    (OSCheckAlarms core now ctx s).2.getLast? =
      some (Event.setTimer core (OSCheckList now ctx (s.queues core) s none).2.1) ∧
    ((OSCheckList now ctx (s.queues core) s none).2.1 = none ↔
      ∀ j ∈ (OSCheckAlarms core now ctx s).1.queues core,
        contribOf ((OSCheckAlarms core now ctx s).1.alarms j) = none) ∧
    (∀ m, (OSCheckList now ctx (s.queues core) s none).2.1 = some m →
      (∃ j, j ∈ (OSCheckAlarms core now ctx s).1.queues core ∧
        ((OSCheckAlarms core now ctx s).1.alarms j).state = OSAlarmState.Set ∧
        ((OSCheckAlarms core now ctx s).1.alarms j).nextFire = m) ∧
      (∀ j ∈ (OSCheckAlarms core now ctx s).1.queues core,
        ((OSCheckAlarms core now ctx s).1.alarms j).state = OSAlarmState.Set →
        ((OSCheckAlarms core now ctx s).1.alarms j).nextFire ≠ 0 →
        m ≤ ((OSCheckAlarms core now ctx s).1.alarms j).nextFire)) := by
  have hstate1 : (OSCheckAlarms core now ctx s).1 =
      (OSCheckList now ctx (s.queues core) s none).1 := rfl
  have hminEq := checkList_min_eq now ctx (s.queues core) s none hnodup
  refine ⟨?_, ?_, ?_⟩
  · show ([Event.schedLock, Event.lockAcquire] ++
      (OSCheckList now ctx (s.queues core) s none).2.2 ++
      [Event.lockRelease, Event.schedUnlock,
       Event.setTimer core (OSCheckList now ctx (s.queues core) s none).2.1]).getLast? = _
    rw [List.getLast?_append_of_ne_nil _ (by simp)]
    rfl
  · rw [hminEq, hstate1, foldl_minOpt_none]
    constructor
    · rintro ⟨hnil, -⟩
      intro j hj
      have hj0 : j ∈ s.queues core :=
        checkList_queues_subset now ctx (s.queues core) j s none core hj
      by_cases hc : contribOf ((OSCheckList now ctx (s.queues core) s none).1.alarms j) = none
      · exact hc
      · exfalso
        rw [List.filterMap_eq_nil_iff] at hnil
        exact hc (hnil j hj0)
    · intro hall
      refine ⟨?_, rfl⟩
      rw [List.filterMap_eq_nil_iff]
      intro j hj
      by_cases hc : contribOf ((OSCheckList now ctx (s.queues core) s none).1.alarms j) = none
      · exact hc
      · exfalso
        have hset : ((OSCheckList now ctx (s.queues core) s none).1.alarms j).state =
            OSAlarmState.Set := by
          by_contra hns
          exact hc (by simp [contribOf, hns])
        have hmemf : j ∈ (OSCheckList now ctx (s.queues core) s none).1.queues core :=
          checkList_set_stays now ctx (s.queues core) j s none core hnodup hj hset
        exact hc (hall j hmemf)
  · intro m hm
    rw [hminEq] at hm
    obtain ⟨hall, -, hmem⟩ := foldl_minOpt_some _ _ _ hm
    rcases hmem with hmem | hmem
    swap
    · exact absurd hmem (fun h => Option.noConfusion h)
    obtain ⟨j, hj, hfj⟩ := List.mem_filterMap.mp hmem
    constructor
    · have hcond : ((OSCheckList now ctx (s.queues core) s none).1.alarms j).state =
          OSAlarmState.Set ∧
          ((OSCheckList now ctx (s.queues core) s none).1.alarms j).nextFire ≠ 0 := by
        by_contra hns
        rw [contribOf, if_neg hns] at hfj
        exact Option.noConfusion hfj
      have hnf : ((OSCheckList now ctx (s.queues core) s none).1.alarms j).nextFire = m := by
        rw [contribOf, if_pos hcond] at hfj
        exact Option.some.inj hfj
      refine ⟨j, ?_, ?_, ?_⟩
      · rw [hstate1]
        exact checkList_set_stays now ctx (s.queues core) j s none core hnodup hj hcond.1
      · rw [hstate1]; exact hcond.1
      · rw [hstate1]; exact hnf
    · intro j2 hj2 hset2 hnf2
      rw [hstate1] at hj2 hset2 hnf2
      have hj20 : j2 ∈ s.queues core :=
        checkList_queues_subset now ctx (s.queues core) j2 s none core hj2
      have hfj2 : contribOf ((OSCheckList now ctx (s.queues core) s none).1.alarms j2) =
          some ((OSCheckList now ctx (s.queues core) s none).1.alarms j2).nextFire := by
        rw [contribOf, if_pos ⟨hset2, hnf2⟩]
      have hmem2 : ((OSCheckList now ctx (s.queues core) s none).1.alarms j2).nextFire ∈
          (s.queues core).filterMap
            (fun j => contribOf ((OSCheckList now ctx (s.queues core) s none).1.alarms j)) :=
        List.mem_filterMap.mpr ⟨j2, hj20, hfj2⟩
      exact hall _ hmem2

/-- C4 witness: the amended theorem at the one-alarm example — after the
one-shot fire no Armed alarm remains, so the final event re-arms the timer
to "never". -/
theorem claim_C4_witness :
    (OSCheckAlarms 0 150 7 exampleArmed).2.getLast? =
      some (Event.setTimer 0 (OSCheckList 150 7 (exampleArmed.queues 0)
        exampleArmed none).2.1) ∧
    ((OSCheckList 150 7 (exampleArmed.queues 0) exampleArmed none).2.1 = none ↔
      ∀ j ∈ (OSCheckAlarms 0 150 7 exampleArmed).1.queues 0,
        contribOf ((OSCheckAlarms 0 150 7 exampleArmed).1.alarms j) = none) := by
  have h := claim_C4_rearm_timer exampleArmed 0 150 7 (by decide)
  exact ⟨h.1, h.2.1⟩

/-! ## Claim C5: `OSCancelAlarms` (cancel by group tag) -/

theorem count_filter_ne_other (l : List Nat) (id j : Nat) (h : j ≠ id) :
    ((l.filter (fun x => x ≠ id)).count j) = l.count j := by
  induction l with
  | nil => rfl
  | cons x xs ih =>
    by_cases hx : x = id
    · simp only [ne_eq, decide_not] at ih ⊢
      simp [List.filter_cons, List.count_cons, hx, h, ih]
    · simp only [ne_eq, decide_not] at ih ⊢
      simp [List.filter_cons, List.count_cons, hx, ih]

theorem cancelTagList_queues_subset (t : Nat) (ids : List Nat) (j : Nat) :
    ∀ (s : AlarmSystem) (c : Fin 3),
      j ∈ (cancelTagInQueue t ids s).1.queues c → j ∈ s.queues c := by
  induction ids with
  | nil => intro s c h; exact h
  | cons id rest ih =>
    intro s c h
    simp only [cancelTagInQueue] at h
    by_cases ht : (s.alarms id).alarmTag = t
    · rw [if_pos ht] at h
      have h1 := ih _ _ h
      rw [cancelNoLock_queues] at h1
      by_cases hif : (s.alarms id).state = OSAlarmState.Set ∧
          (s.alarms id).alarmQueue = some c
      · rw [if_pos hif] at h1
        exact List.mem_of_mem_filter h1
      · rw [if_neg hif] at h1
        exact h1
    · rw [if_neg ht] at h
      exact ih _ _ h

theorem cancelTagList_not_mem (t : Nat) (ids : List Nat) (j : Nat)
    (s : AlarmSystem) (c : Fin 3) (h : j ∉ s.queues c) :
    j ∉ (cancelTagInQueue t ids s).1.queues c :=
  fun hm => h (cancelTagList_queues_subset t ids j s c hm)

theorem cancelTagList_keep_frame (t : Nat) (ids : List Nat) (j : Nat) :
    ∀ s : AlarmSystem, (s.alarms j).state ≠ OSAlarmState.Set →
      (cancelTagInQueue t ids s).1.alarms j = s.alarms j := by
  induction ids with
  | nil => intro s _; rfl
  | cons id rest ih =>
    intro s hns
    simp only [cancelTagInQueue]
    by_cases ht : (s.alarms id).alarmTag = t
    · rw [if_pos ht]
      by_cases he : id = j
      · subst he
        rw [cancelNoLock_not_set s id hns]
        exact ih s hns
      · have hpres := cancelNoLock_alarms_ne s id j (fun hh => he hh.symm)
        rw [ih _ (by rw [hpres]; exact hns), hpres]
    · rw [if_neg ht]
      exact ih s hns

theorem cancelTagList_tagne (t : Nat) (ids : List Nat) (j : Nat) :
    ∀ s : AlarmSystem, (s.alarms j).alarmTag ≠ t →
      (cancelTagInQueue t ids s).1.alarms j = s.alarms j ∧
      (∀ c : Fin 3, ((cancelTagInQueue t ids s).1.queues c).count j =
        (s.queues c).count j) := by
  induction ids with
  | nil => intro s _; exact ⟨rfl, fun c => rfl⟩
  | cons id rest ih =>
    intro s hnt
    simp only [cancelTagInQueue]
    by_cases ht : (s.alarms id).alarmTag = t
    · have he : id ≠ j := by
        intro hh
        subst hh
        exact hnt ht
      rw [if_pos ht]
      have hpres := cancelNoLock_alarms_ne s id j (fun hh => he hh.symm)
      obtain ⟨ha, hc⟩ := ih (OSCancelAlarmNoLock s id).1 (by rw [hpres]; exact hnt)
      refine ⟨by rw [ha, hpres], fun c => ?_⟩
      rw [hc c, cancelNoLock_queues]
      by_cases hif : (s.alarms id).state = OSAlarmState.Set ∧
          (s.alarms id).alarmQueue = some c
      · rw [if_pos hif]
        exact count_filter_ne_other _ _ _ (fun hh => he hh.symm)
      · rw [if_neg hif]
    · rw [if_neg ht]
      exact ih s hnt

theorem cancelTagList_hits (t : Nat) (ids : List Nat) (j : Nat) :
    ∀ s : AlarmSystem, j ∈ ids → (s.alarms j).alarmTag = t →
      (s.alarms j).state = OSAlarmState.Set →
      ((cancelTagInQueue t ids s).1.alarms j).state = OSAlarmState.Cancelled ∧
      ((cancelTagInQueue t ids s).1.alarms j).nextFire = 0 ∧
      ((cancelTagInQueue t ids s).1.alarms j).period = 0 ∧
      (∀ c : Fin 3, (s.alarms j).alarmQueue = some c →
         j ∉ (cancelTagInQueue t ids s).1.queues c) ∧
      (∀ tid ∈ (s.alarms j).threadQueue,
         Event.wake tid ∈ (cancelTagInQueue t ids s).2) := by
  induction ids with
  | nil => intro s hmem; exact absurd hmem (List.not_mem_nil j)
  | cons id rest ih =>
    intro s hmem htag hset
    simp only [cancelTagInQueue]
    by_cases he : id = j
    · subst he
      rw [if_pos htag]
      have halarm := cancelNoLock_set_alarm s id hset
      have hcanc : ((OSCancelAlarmNoLock s id).1.alarms id).state =
          OSAlarmState.Cancelled := by rw [halarm]
      have hkeep := cancelTagList_keep_frame t rest id (OSCancelAlarmNoLock s id).1
        (by rw [hcanc]; intro hx; exact OSAlarmState.noConfusion hx)
      refine ⟨by rw [hkeep, halarm], by rw [hkeep, halarm], by rw [hkeep, halarm],
        ?_, ?_⟩
      · intro c hc
        refine cancelTagList_not_mem t rest id _ c ?_
        rw [cancelNoLock_queues, if_pos ⟨hset, hc⟩]
        exact not_mem_filter_self _ _
      · intro tid htid
        refine List.mem_append.mpr (Or.inl ?_)
        rw [cancelNoLock_events s id hset]
        simp only [List.mem_append, List.mem_map]
        exact Or.inr ⟨tid, htid, rfl⟩
    · have hmem' : j ∈ rest := by
        rcases List.mem_cons.mp hmem with h | h
        · exact absurd h.symm he
        · exact h
      by_cases ht : (s.alarms id).alarmTag = t
      · rw [if_pos ht]
        have hpres := cancelNoLock_alarms_ne s id j (fun hh => he hh.symm)
        obtain ⟨h1, h2, h3, h4, h5⟩ := ih (OSCancelAlarmNoLock s id).1 hmem'
          (by rw [hpres]; exact htag) (by rw [hpres]; exact hset)
        refine ⟨h1, h2, h3, ?_, ?_⟩
        · intro c hc
          exact h4 c (by rw [hpres]; exact hc)
        · intro tid htid
          exact List.mem_append.mpr (Or.inr (h5 tid (by rw [hpres]; exact htid)))
      · rw [if_neg ht]
        obtain ⟨h1, h2, h3, h4, h5⟩ := ih s hmem' htag hset
        exact ⟨h1, h2, h3, h4,
          fun tid htid => List.mem_append.mpr (Or.inr (h5 tid htid))⟩

theorem cancelTagList_hit_or_keep (t : Nat) (ids : List Nat) (j : Nat) :
    ∀ s : AlarmSystem, (s.alarms j).alarmTag = t →
      (s.alarms j).state = OSAlarmState.Set →
      (((cancelTagInQueue t ids s).1.alarms j).state = OSAlarmState.Cancelled ∧
       ((cancelTagInQueue t ids s).1.alarms j).nextFire = 0 ∧
       ((cancelTagInQueue t ids s).1.alarms j).period = 0 ∧
       (∀ c : Fin 3, (s.alarms j).alarmQueue = some c →
          j ∉ (cancelTagInQueue t ids s).1.queues c) ∧
       (∀ tid ∈ (s.alarms j).threadQueue,
          Event.wake tid ∈ (cancelTagInQueue t ids s).2)) ∨
      ((cancelTagInQueue t ids s).1.alarms j = s.alarms j ∧
       (∀ c : Fin 3, ((cancelTagInQueue t ids s).1.queues c).count j =
          (s.queues c).count j)) := by
  induction ids with
  | nil => intro s _ _; exact Or.inr ⟨rfl, fun c => rfl⟩
  | cons id rest ih =>
    intro s htag hset
    by_cases he : id = j
    · subst he
      exact Or.inl (cancelTagList_hits t (id :: rest) id s
        (List.mem_cons_self id rest) htag hset)
    · simp only [cancelTagInQueue]
      by_cases ht : (s.alarms id).alarmTag = t
      · rw [if_pos ht]
        have hpres := cancelNoLock_alarms_ne s id j (fun hh => he hh.symm)
        have hcount : ∀ c : Fin 3,
            ((OSCancelAlarmNoLock s id).1.queues c).count j = (s.queues c).count j := by
          intro c
          rw [cancelNoLock_queues]
          by_cases hif : (s.alarms id).state = OSAlarmState.Set ∧
              (s.alarms id).alarmQueue = some c
          · rw [if_pos hif]
            exact count_filter_ne_other _ _ _ (fun hh => he hh.symm)
          · rw [if_neg hif]
        rcases ih (OSCancelAlarmNoLock s id).1 (by rw [hpres]; exact htag)
            (by rw [hpres]; exact hset) with
          ⟨h1, h2, h3, h4, h5⟩ | ⟨h1, h2⟩
        · refine Or.inl ⟨h1, h2, h3, ?_, ?_⟩
          · intro c hc
            exact h4 c (by rw [hpres]; exact hc)
          · intro tid htid
            exact List.mem_append.mpr (Or.inr (h5 tid (by rw [hpres]; exact htid)))
        · exact Or.inr ⟨by rw [h1, hpres], fun c => by rw [h2 c, hcount c]⟩
      · rw [if_neg ht]
        rcases ih s htag hset with ⟨h1, h2, h3, h4, h5⟩ | ⟨h1, h2⟩
        · exact Or.inl ⟨h1, h2, h3, h4,
            fun tid htid => List.mem_append.mpr (Or.inr (h5 tid htid))⟩
        · exact Or.inr ⟨h1, h2⟩

theorem lockAcquire_not_cancelNoLock (s : AlarmSystem) (id : Nat) :
    Event.lockAcquire ∉ (OSCancelAlarmNoLock s id).2.2 := by
  by_cases hs : (s.alarms id).state = OSAlarmState.Set
  · rw [cancelNoLock_events s id hs]
    cases (s.alarms id).alarmQueue <;> simp
  · rw [cancelNoLock_not_set s id hs]
    simp

theorem lockAcquire_not_cancelTagList (t : Nat) (ids : List Nat) :
    ∀ s : AlarmSystem, Event.lockAcquire ∉ (cancelTagInQueue t ids s).2 := by
  induction ids with
  | nil => intro s; simp [cancelTagInQueue]
  | cons id rest ih =>
    intro s
    simp only [cancelTagInQueue, List.mem_append]
    intro h
    rcases h with h | h
    · by_cases ht : (s.alarms id).alarmTag = t
      · rw [if_pos ht] at h
        exact lockAcquire_not_cancelNoLock s id h
      · rw [if_neg ht] at h
        simp at h
    · by_cases ht : (s.alarms id).alarmTag = t
      · rw [if_pos ht] at h
        exact ih _ h
      · rw [if_neg ht] at h
        exact ih _ h

theorem keepCancelledStage (t : Nat) (ids : List Nat) (j : Nat)
    (s : AlarmSystem) (h : (s.alarms j).state = OSAlarmState.Cancelled) :
    (cancelTagInQueue t ids s).1.alarms j = s.alarms j :=
  cancelTagList_keep_frame t ids j s
    (by rw [h]; exact fun hx => OSAlarmState.noConfusion hx)

/-- C5: `OSCancelAlarms t` takes the spinlock exactly once, leaves every
alarm whose group tag differs from `t` completely untouched (record and
queue multiplicity), never changes a non-Armed record, and cancels — with
the full per-alarm cancel effect including unlink and waking the wait set —
every queued Armed alarm whose group tag is `t`, on whichever core's queue
it lives. -/
theorem claim_C5_cancel_by_tag (s : AlarmSystem) (t : Nat) :
    ((OSCancelAlarms t s).2.count Event.lockAcquire = 1) ∧
    (∀ j, (s.alarms j).alarmTag ≠ t →
       (OSCancelAlarms t s).1.alarms j = s.alarms j ∧
       (∀ c : Fin 3, ((OSCancelAlarms t s).1.queues c).count j =
         (s.queues c).count j)) ∧
    (∀ j, (s.alarms j).state ≠ OSAlarmState.Set →
       (OSCancelAlarms t s).1.alarms j = s.alarms j) ∧
    (∀ c : Fin 3, ∀ j ∈ s.queues c,
       (s.alarms j).alarmTag = t → (s.alarms j).state = OSAlarmState.Set →
       ((OSCancelAlarms t s).1.alarms j).state = OSAlarmState.Cancelled ∧
       ((OSCancelAlarms t s).1.alarms j).nextFire = 0 ∧
       ((OSCancelAlarms t s).1.alarms j).period = 0 ∧
       (∀ c2 : Fin 3, (s.alarms j).alarmQueue = some c2 →
          j ∉ (OSCancelAlarms t s).1.queues c2) ∧
       (∀ tid ∈ (s.alarms j).threadQueue,
          Event.wake tid ∈ (OSCancelAlarms t s).2)) := by
  obtain ⟨s1, e0, h0⟩ : ∃ a b, cancelTagInQueue t (s.queues 0) s = (a, b) :=
    ⟨_, _, rfl⟩
  obtain ⟨s2, e1, h1⟩ : ∃ a b, cancelTagInQueue t (s1.queues 1) s1 = (a, b) :=
    ⟨_, _, rfl⟩
  obtain ⟨s3, e2, h2⟩ : ∃ a b, cancelTagInQueue t (s2.queues 2) s2 = (a, b) :=
    ⟨_, _, rfl⟩
  have hfin : OSCancelAlarms t s =
      (s3, [Event.lockAcquire] ++ e0 ++ e1 ++ e2 ++ [Event.lockRelease]) := by
    simp only [OSCancelAlarms, h0, h1, h2]
  have hne0 : Event.lockAcquire ∉ e0 := by
    have h := lockAcquire_not_cancelTagList t (s.queues 0) s
    simpa only [h0] using h
  have hne1 : Event.lockAcquire ∉ e1 := by
    have h := lockAcquire_not_cancelTagList t (s1.queues 1) s1
    simpa only [h1] using h
  have hne2 : Event.lockAcquire ∉ e2 := by
    have h := lockAcquire_not_cancelTagList t (s2.queues 2) s2
    simpa only [h2] using h
  refine ⟨?_, ?_, ?_, ?_⟩
  · simp only [hfin]
    rw [List.count_append, List.count_append, List.count_append,
      List.count_append, List.count_eq_zero_of_not_mem hne0,
      List.count_eq_zero_of_not_mem hne1, List.count_eq_zero_of_not_mem hne2]
    decide
  · intro j hjt
    have g0 := cancelTagList_tagne t (s.queues 0) j s hjt
    simp only [h0] at g0
    have g1 := cancelTagList_tagne t (s1.queues 1) j s1 (by rw [g0.1]; exact hjt)
    simp only [h1] at g1
    have g2 := cancelTagList_tagne t (s2.queues 2) j s2
      (by rw [g1.1, g0.1]; exact hjt)
    simp only [h2] at g2
    simp only [hfin]
    exact ⟨by rw [g2.1, g1.1, g0.1],
      fun c => by rw [g2.2 c, g1.2 c, g0.2 c]⟩
  · intro j hjs
    have g0 := cancelTagList_keep_frame t (s.queues 0) j s hjs
    simp only [h0] at g0
    have g1 := cancelTagList_keep_frame t (s1.queues 1) j s1 (by rw [g0]; exact hjs)
    simp only [h1] at g1
    have g2 := cancelTagList_keep_frame t (s2.queues 2) j s2
      (by rw [g1, g0]; exact hjs)
    simp only [h2] at g2
    simp only [hfin]
    rw [g2, g1, g0]
  · intro c j hjc htag hset
    simp only [hfin]
    have hwake0 : ∀ e, e ∈ e0 →
        e ∈ [Event.lockAcquire] ++ e0 ++ e1 ++ e2 ++ [Event.lockRelease] := by
      intro e he
      simp only [List.mem_append]
      exact Or.inl (Or.inl (Or.inl (Or.inr he)))
    have hwake1 : ∀ e, e ∈ e1 →
        e ∈ [Event.lockAcquire] ++ e0 ++ e1 ++ e2 ++ [Event.lockRelease] := by
      intro e he
      simp only [List.mem_append]
      exact Or.inl (Or.inl (Or.inr he))
    have hwake2 : ∀ e, e ∈ e2 →
        e ∈ [Event.lockAcquire] ++ e0 ++ e1 ++ e2 ++ [Event.lockRelease] := by
      intro e he
      simp only [List.mem_append]
      exact Or.inl (Or.inr he)
    -- propagate a hit at stage 0 to the end of the call
    have hafter0 : (((s1.alarms j).state = OSAlarmState.Cancelled ∧
          (s1.alarms j).nextFire = 0 ∧ (s1.alarms j).period = 0 ∧
          (∀ c2 : Fin 3, (s.alarms j).alarmQueue = some c2 →
            j ∉ s1.queues c2) ∧
          (∀ tid ∈ (s.alarms j).threadQueue, Event.wake tid ∈ e0)) →
        ((s3.alarms j).state = OSAlarmState.Cancelled ∧
         (s3.alarms j).nextFire = 0 ∧ (s3.alarms j).period = 0 ∧
         (∀ c2 : Fin 3, (s.alarms j).alarmQueue = some c2 →
            j ∉ s3.queues c2) ∧
         (∀ tid ∈ (s.alarms j).threadQueue,
            Event.wake tid ∈ [Event.lockAcquire] ++ e0 ++ e1 ++ e2 ++
              [Event.lockRelease]))) := by
      rintro ⟨hc1, hc2, hc3, hc4, hc5⟩
      have hk1 : s2.alarms j = s1.alarms j := by
        have h := keepCancelledStage t (s1.queues 1) j s1 hc1
        simpa only [h1] using h
      have hk2 : s3.alarms j = s2.alarms j := by
        have h := keepCancelledStage t (s2.queues 2) j s2 (by rw [hk1]; exact hc1)
        simpa only [h2] using h
      refine ⟨by rw [hk2, hk1]; exact hc1, by rw [hk2, hk1]; exact hc2,
        by rw [hk2, hk1]; exact hc3, ?_, fun tid htid => hwake0 _ (hc5 tid htid)⟩
      intro c2 hc2'
      have ha1 := hc4 c2 hc2'
      have ha2 : j ∉ s2.queues c2 := by
        have h := cancelTagList_not_mem t (s1.queues 1) j s1 c2 ha1
        simpa only [h1] using h
      have ha3 : j ∉ s3.queues c2 := by
        have h := cancelTagList_not_mem t (s2.queues 2) j s2 c2 ha2
        simpa only [h2] using h
      exact ha3
    -- propagate a hit at stage 1 (given the record was intact entering it)
    have hafter1 : (s1.alarms j = s.alarms j →
        (((s2.alarms j).state = OSAlarmState.Cancelled ∧
          (s2.alarms j).nextFire = 0 ∧ (s2.alarms j).period = 0 ∧
          (∀ c2 : Fin 3, (s1.alarms j).alarmQueue = some c2 →
            j ∉ s2.queues c2) ∧
          (∀ tid ∈ (s1.alarms j).threadQueue, Event.wake tid ∈ e1)) →
        ((s3.alarms j).state = OSAlarmState.Cancelled ∧
         (s3.alarms j).nextFire = 0 ∧ (s3.alarms j).period = 0 ∧
         (∀ c2 : Fin 3, (s.alarms j).alarmQueue = some c2 →
            j ∉ s3.queues c2) ∧
         (∀ tid ∈ (s.alarms j).threadQueue,
            Event.wake tid ∈ [Event.lockAcquire] ++ e0 ++ e1 ++ e2 ++
              [Event.lockRelease])))) := by
      rintro heq ⟨hc1, hc2, hc3, hc4, hc5⟩
      have hk2 : s3.alarms j = s2.alarms j := by
        have h := keepCancelledStage t (s2.queues 2) j s2 hc1
        simpa only [h2] using h
      refine ⟨by rw [hk2]; exact hc1, by rw [hk2]; exact hc2,
        by rw [hk2]; exact hc3, ?_,
        fun tid htid => hwake1 _ (hc5 tid (by rw [heq]; exact htid))⟩
      intro c2 hc2'
      have ha2 := hc4 c2 (by rw [heq]; exact hc2')
      have ha3 : j ∉ s3.queues c2 := by
        have h := cancelTagList_not_mem t (s2.queues 2) j s2 c2 ha2
        simpa only [h2] using h
      exact ha3
    fin_cases c
    · -- the alarm sits in core 0's queue: stage 0 hits it
      have hh := cancelTagList_hits t (s.queues 0) j s hjc htag hset
      simp only [h0] at hh
      exact hafter0 hh
    · -- core 1's queue: stage 0 either hits it or keeps it intact
      rcases (by
          have h := cancelTagList_hit_or_keep t (s.queues 0) j s htag hset
          simpa only [h0] using h :
        (((s1.alarms j).state = OSAlarmState.Cancelled ∧
          (s1.alarms j).nextFire = 0 ∧ (s1.alarms j).period = 0 ∧
          (∀ c2 : Fin 3, (s.alarms j).alarmQueue = some c2 → j ∉ s1.queues c2) ∧
          (∀ tid ∈ (s.alarms j).threadQueue, Event.wake tid ∈ e0)) ∨
         (s1.alarms j = s.alarms j ∧
          ∀ c2 : Fin 3, (s1.queues c2).count j = (s.queues c2).count j)))
        with hh | ⟨heq, hcnt⟩
      · exact hafter0 hh
      · have hmem1 : j ∈ s1.queues 1 := by
          by_contra habs
          have hz := List.count_eq_zero_of_not_mem habs
          rw [hcnt 1] at hz
          exact (List.count_eq_zero.mp hz) hjc
        have hh1 := cancelTagList_hits t (s1.queues 1) j s1 hmem1
          (by rw [heq]; exact htag) (by rw [heq]; exact hset)
        simp only [h1] at hh1
        exact hafter1 heq hh1
    · -- core 2's queue: stages 0 and 1 either hit it or keep it intact
      rcases (by
          have h := cancelTagList_hit_or_keep t (s.queues 0) j s htag hset
          simpa only [h0] using h :
        (((s1.alarms j).state = OSAlarmState.Cancelled ∧
          (s1.alarms j).nextFire = 0 ∧ (s1.alarms j).period = 0 ∧
          (∀ c2 : Fin 3, (s.alarms j).alarmQueue = some c2 → j ∉ s1.queues c2) ∧
          (∀ tid ∈ (s.alarms j).threadQueue, Event.wake tid ∈ e0)) ∨
         (s1.alarms j = s.alarms j ∧
          ∀ c2 : Fin 3, (s1.queues c2).count j = (s.queues c2).count j)))
        with hh | ⟨heq, hcnt⟩
      · exact hafter0 hh
      · rcases (by
            have h := cancelTagList_hit_or_keep t (s1.queues 1) j s1
              (by rw [heq]; exact htag) (by rw [heq]; exact hset)
            simpa only [h1] using h :
          (((s2.alarms j).state = OSAlarmState.Cancelled ∧
            (s2.alarms j).nextFire = 0 ∧ (s2.alarms j).period = 0 ∧
            (∀ c2 : Fin 3, (s1.alarms j).alarmQueue = some c2 →
              j ∉ s2.queues c2) ∧
            (∀ tid ∈ (s1.alarms j).threadQueue, Event.wake tid ∈ e1)) ∨
           (s2.alarms j = s1.alarms j ∧
            ∀ c2 : Fin 3, (s2.queues c2).count j = (s1.queues c2).count j)))
          with hh1 | ⟨heq1, hcnt1⟩
        · exact hafter1 heq hh1
        · have hmem2 : j ∈ s2.queues 2 := by
            by_contra habs
            have hz := List.count_eq_zero_of_not_mem habs
            rw [hcnt1 2, hcnt 2] at hz
            exact (List.count_eq_zero.mp hz) hjc
          have hh2 := cancelTagList_hits t (s2.queues 2) j s2 hmem2
            (by rw [heq1, heq]; exact htag) (by rw [heq1, heq]; exact hset)
          simp only [h2] at hh2
          refine ⟨hh2.1, hh2.2.1, hh2.2.2.1, ?_, ?_⟩
          · intro c2 hc2'
            exact hh2.2.2.2.1 c2 (by rw [heq1, heq]; exact hc2')
          · intro tid htid
            exact hwake2 _ (hh2.2.2.2.2 tid (by rw [heq1, heq]; exact htid))

/-- C5 witness: scenario 4 — cancelling tag 7 cancels alarms 0 and 1 across
the queues, leaves the tag-9 alarm untouched, under one lock acquisition. -/
theorem claim_C5_witness :
    ((OSCancelAlarms 7 exampleTagged).1.alarms 0).state =
      OSAlarmState.Cancelled ∧
    ((OSCancelAlarms 7 exampleTagged).1.alarms 1).state =
      OSAlarmState.Cancelled ∧
    (OSCancelAlarms 7 exampleTagged).1.alarms 2 = exampleTagged.alarms 2 ∧
    (OSCancelAlarms 7 exampleTagged).2.count Event.lockAcquire = 1 := by
  have h := claim_C5_cancel_by_tag exampleTagged 7
  exact ⟨(h.2.2.2 0 0 (by decide) (by decide) (by decide)).1,
    (h.2.2.2 0 1 (by decide) (by decide) (by decide)).1,
    (h.2.1 2 (by decide)).1, h.1⟩

/-! ## Claim C7: the queue-linkage invariant -/

theorem count_filter_self (l : List Nat) (id : Nat) :
    ((l.filter (fun x => x ≠ id)).count id) = 0 :=
  List.count_eq_zero_of_not_mem (not_mem_filter_self l id)

theorem nodup_append_single (l : List Nat) (id : Nat) (h : l.Nodup)
    (hid : id ∉ l) : (l ++ [id]).Nodup := by
  have : l ++ [id] = l ++ id :: [] := rfl
  rw [this, List.nodup_middle]
  simp [h, hid]

theorem wf_queue_state (dom : List Nat) (s : AlarmSystem) (hwf : WFon dom s)
    (c : Fin 3) (id : Nat) (h : id ∈ s.queues c) :
    id ∈ dom ∧ (s.alarms id).state = OSAlarmState.Set := by
  have hdom : id ∈ dom := hwf.1 c id h
  refine ⟨hdom, ?_⟩
  by_contra hns
  have hz := (hwf.2.2 id hdom).2 hns
  exact (List.count_eq_zero.mp (hz.1 c)) h

theorem wf_cancelNoLock (dom : List Nat) (s : AlarmSystem) (id : Nat)
    (hwf : WFon dom s) (hid : id ∈ dom) :
    WFon dom (OSCancelAlarmNoLock s id).1 := by
  by_cases hs : (s.alarms id).state = OSAlarmState.Set
  case neg =>
    rw [cancelNoLock_not_set s id hs]
    exact hwf
  case pos =>
    have hex := (hwf.2.2 id hid).1 hs
    obtain ⟨c₀, hbq, hlo⟩ := hex
    have hcnt1 : (s.queues c₀).count id = 1 := hlo.1
    have hcnt0 : ∀ c' : Fin 3, c' ≠ c₀ → (s.queues c').count id = 0 := hlo.2
    have hqpres : ∀ (c : Fin 3) (j : Nat), j ≠ id →
        ((OSCancelAlarmNoLock s id).1.queues c).count j = (s.queues c).count j := by
      intro c j hji
      rw [cancelNoLock_queues]
      by_cases hif : (s.alarms id).state = OSAlarmState.Set ∧
          (s.alarms id).alarmQueue = some c
      · rw [if_pos hif]
        exact count_filter_ne_other _ _ _ hji
      · rw [if_neg hif]
    refine ⟨?_, ?_, ?_⟩
    · intro c j hj
      rw [cancelNoLock_queues] at hj
      by_cases hif : (s.alarms id).state = OSAlarmState.Set ∧
          (s.alarms id).alarmQueue = some c
      · rw [if_pos hif] at hj
        exact hwf.1 c j (List.mem_of_mem_filter hj)
      · rw [if_neg hif] at hj
        exact hwf.1 c j hj
    · intro c
      rw [cancelNoLock_queues]
      by_cases hif : (s.alarms id).state = OSAlarmState.Set ∧
          (s.alarms id).alarmQueue = some c
      · rw [if_pos hif]
        exact (hwf.2.1 c).filter _
      · rw [if_neg hif]
        exact hwf.2.1 c
    · intro j hjdom
      by_cases hji : j = id
      · subst hji
        have halarm := cancelNoLock_set_alarm s j hs
        constructor
        · intro hset'
          rw [halarm] at hset'
          exact absurd hset' (by intro hx; exact OSAlarmState.noConfusion hx)
        · intro _
          constructor
          · intro c
            rw [cancelNoLock_queues]
            by_cases hc : c = c₀
            · subst hc
              rw [if_pos ⟨hs, hbq⟩]
              exact count_filter_self _ _
            · rw [if_neg ?_]
              · exact hcnt0 c hc
              · rintro ⟨-, hx⟩
                rw [hbq] at hx
                exact hc (Option.some.inj hx).symm
          · rw [halarm]
      · have hrec := cancelNoLock_alarms_ne s id j hji
        constructor
        · intro hset'
          rw [hrec] at hset'
          obtain ⟨c₁, hb₁, hl₁⟩ := (hwf.2.2 j hjdom).1 hset'
          refine ⟨c₁, by rw [hrec]; exact hb₁, ?_, ?_⟩
          · rw [hqpres c₁ j hji]
            exact hl₁.1
          · intro c' hc'
            rw [hqpres c' j hji]
            exact hl₁.2 c' hc'
        · intro hns'
          rw [hrec] at hns'
          have hz := (hwf.2.2 j hjdom).2 hns'
          exact ⟨fun c => by rw [hqpres c j hji]; exact hz.1 c,
            by rw [hrec]; exact hz.2⟩

theorem wf_createEx (dom : List Nat) (s : AlarmSystem) (id : Nat)
    (nm : Option Nat) (hwf : WFon dom s)
    (hunl : ∀ c : Fin 3, (s.queues c).count id = 0) :
    WFon dom (OSCreateAlarmEx s id nm) := by
  have hq : ∀ c : Fin 3, (OSCreateAlarmEx s id nm).queues c = s.queues c :=
    fun c => rfl
  refine ⟨fun c j hj => hwf.1 c j hj, fun c => hwf.2.1 c, ?_⟩
  intro j hjdom
  by_cases hji : j = id
  · subst hji
    have hrec : (OSCreateAlarmEx s j nm).alarms j =
        { zeroAlarm with tag := OSAlarm.Tag, name := nm } :=
      updAlarm_alarms_self _ _ _
    constructor
    · intro hset'
      rw [hrec] at hset'
      exact absurd hset' (by intro hx; exact OSAlarmState.noConfusion hx)
    · intro _
      exact ⟨fun c => hunl c, by rw [hrec]; rfl⟩
  · have hrec : (OSCreateAlarmEx s id nm).alarms j = s.alarms j :=
      updAlarm_alarms_ne _ _ _ _ hji
    constructor
    · intro hset'
      rw [hrec] at hset'
      obtain ⟨c₁, hb₁, hl₁⟩ := (hwf.2.2 j hjdom).1 hset'
      exact ⟨c₁, by rw [hrec]; exact hb₁, hl₁.1, hl₁.2⟩
    · intro hns'
      rw [hrec] at hns'
      have hz := (hwf.2.2 j hjdom).2 hns'
      exact ⟨hz.1, by rw [hrec]; exact hz.2⟩

theorem wf_setPeriodic (dom : List Nat) (s : AlarmSystem) (id : Nat)
    (core : Fin 3) (start interval : Int) (cb : Option Nat)
    (hwf : WFon dom s) (hid : id ∈ dom) :
    WFon dom (OSSetPeriodicAlarm core s id start interval cb).1 := by
  have hqeq := setPeriodic_queues core s id start interval cb
  -- the alarm is in no queue after the erase step, before the append
  have hpre0 : ∀ c : Fin 3,
      ((if (s.alarms id).alarmQueue = some c then
          (s.queues c).filter (fun j => j ≠ id)
        else s.queues c)).count id = 0 := by
    intro c
    by_cases hb : (s.alarms id).alarmQueue = some c
    · rw [if_pos hb]
      exact count_filter_self _ _
    · rw [if_neg hb]
      by_cases hs : (s.alarms id).state = OSAlarmState.Set
      · obtain ⟨c₁, hb₁, hl₁⟩ := (hwf.2.2 id hid).1 hs
        refine hl₁.2 c ?_
        intro hx
        subst hx
        exact hb hb₁
      · exact ((hwf.2.2 id hid).2 hs).1 c
  have hcount : ∀ (c : Fin 3) (j : Nat), j ≠ id →
      ((OSSetPeriodicAlarm core s id start interval cb).1.queues c).count j =
        (s.queues c).count j := by
    intro c j hji
    rw [hqeq c, List.count_append]
    have h2 : ([id].count j) = 0 := by
      rw [List.count_eq_zero]
      simp [hji]
    have h1 : ((if (s.alarms id).alarmQueue = some c then
        (s.queues c).filter (fun x => x ≠ id)
      else s.queues c)).count j = (s.queues c).count j := by
      by_cases hb : (s.alarms id).alarmQueue = some c
      · rw [if_pos hb]
        exact count_filter_ne_other _ _ _ hji
      · rw [if_neg hb]
    by_cases hc : c = core
    · rw [if_pos hc, h2, h1, Nat.add_zero]
    · rw [if_neg hc]
      simp only [List.count_nil, Nat.add_zero]
      exact h1
  refine ⟨?_, ?_, ?_⟩
  · intro c j hj
    rw [hqeq c] at hj
    rcases List.mem_append.mp hj with hj | hj
    · by_cases hb : (s.alarms id).alarmQueue = some c
      · rw [if_pos hb] at hj
        exact hwf.1 c j (List.mem_of_mem_filter hj)
      · rw [if_neg hb] at hj
        exact hwf.1 c j hj
    · by_cases hc : c = core
      · rw [if_pos hc] at hj
        have : j = id := by simpa using hj
        rw [this]
        exact hid
      · rw [if_neg hc] at hj
        exact absurd hj (List.not_mem_nil j)
  · intro c
    rw [hqeq c]
    by_cases hc : c = core
    · rw [if_pos hc]
      refine nodup_append_single _ _ ?_ ?_
      · by_cases hb : (s.alarms id).alarmQueue = some c
        · rw [if_pos hb]
          exact (hwf.2.1 c).filter _
        · rw [if_neg hb]
          exact hwf.2.1 c
      · exact List.count_eq_zero.mp (hpre0 c)
    · rw [if_neg hc]
      rw [List.append_nil]
      by_cases hb : (s.alarms id).alarmQueue = some c
      · rw [if_pos hb]
        exact (hwf.2.1 c).filter _
      · rw [if_neg hb]
        exact hwf.2.1 c
  · intro j hjdom
    by_cases hji : j = id
    · subst hji
      have hrec := setPeriodic_alarm core s j start interval cb
      constructor
      · intro _
        refine ⟨core, by rw [hrec], ?_, ?_⟩
        · rw [hqeq core, if_pos rfl, List.count_append, hpre0 core]
          simp
        · intro c' hc'
          rw [hqeq c', if_neg hc', List.append_nil]
          exact hpre0 c'
      · intro hns'
        rw [hrec] at hns'
        exact absurd rfl hns'
    · have hrec := setPeriodic_alarms_ne core s id j start interval cb hji
      constructor
      · intro hset'
        rw [hrec] at hset'
        obtain ⟨c₁, hb₁, hl₁⟩ := (hwf.2.2 j hjdom).1 hset'
        exact ⟨c₁, by rw [hrec]; exact hb₁,
          by rw [hcount c₁ j hji]; exact hl₁.1,
          fun c' hc' => by rw [hcount c' j hji]; exact hl₁.2 c' hc'⟩
      · intro hns'
        rw [hrec] at hns'
        have hz := (hwf.2.2 j hjdom).2 hns'
        exact ⟨fun c => by rw [hcount c j hji]; exact hz.1 c,
          by rw [hrec]; exact hz.2⟩

theorem wf_trigger (dom : List Nat) (s : AlarmSystem) (id : Nat)
    (now : Int) (ctx : Nat) (hwf : WFon dom s) (hid : id ∈ dom)
    (hset : (s.alarms id).state = OSAlarmState.Set) :
    WFon dom (OSTriggerAlarmNoLock now ctx s id).1 := by
  obtain ⟨c₀, hbq, hlo⟩ := (hwf.2.2 id hid).1 hset
  have hcount : ∀ (c : Fin 3) (j : Nat), j ≠ id →
      ((OSTriggerAlarmNoLock now ctx s id).1.queues c).count j =
        (s.queues c).count j := by
    intro c j hji
    rw [trigger_queues]
    by_cases hif : (s.alarms id).period = 0 ∧ (s.alarms id).alarmQueue = some c
    · rw [if_pos hif]
      exact count_filter_ne_other _ _ _ hji
    · rw [if_neg hif]
  refine ⟨?_, ?_, ?_⟩
  · intro c j hj
    rw [trigger_queues] at hj
    by_cases hif : (s.alarms id).period = 0 ∧ (s.alarms id).alarmQueue = some c
    · rw [if_pos hif] at hj
      exact hwf.1 c j (List.mem_of_mem_filter hj)
    · rw [if_neg hif] at hj
      exact hwf.1 c j hj
  · intro c
    rw [trigger_queues]
    by_cases hif : (s.alarms id).period = 0 ∧ (s.alarms id).alarmQueue = some c
    · rw [if_pos hif]
      exact (hwf.2.1 c).filter _
    · rw [if_neg hif]
      exact hwf.2.1 c
  · intro j hjdom
    by_cases hji : j = id
    · subst hji
      by_cases hp : (s.alarms j).period = 0
      · have hrec := trigger_oneshot_alarm now ctx s j hp
        constructor
        · intro hset'
          rw [hrec] at hset'
          exact absurd hset' (by intro hx; exact OSAlarmState.noConfusion hx)
        · intro _
          refine ⟨?_, by rw [hrec]⟩
          intro c
          rw [trigger_queues]
          by_cases hc : c = c₀
          · subst hc
            rw [if_pos ⟨hp, hbq⟩]
            exact count_filter_self _ _
          · rw [if_neg ?_]
            · exact hlo.2 c hc
            · rintro ⟨-, hx⟩
              rw [hbq] at hx
              exact hc (Option.some.inj hx).symm
      · have hrec := trigger_periodic_alarm now ctx s j hp
        constructor
        · intro _
          refine ⟨c₀, by rw [hrec]; exact hbq, ?_, ?_⟩
          · rw [trigger_periodic_queues now ctx s j hp]
            exact hlo.1
          · intro c' hc'
            rw [trigger_periodic_queues now ctx s j hp]
            exact hlo.2 c' hc'
        · intro hns'
          rw [hrec] at hns'
          exact absurd rfl hns'
    · have hrec := trigger_alarms_ne now ctx s id j hji
      constructor
      · intro hset'
        rw [hrec] at hset'
        obtain ⟨c₁, hb₁, hl₁⟩ := (hwf.2.2 j hjdom).1 hset'
        exact ⟨c₁, by rw [hrec]; exact hb₁,
          by rw [hcount c₁ j hji]; exact hl₁.1,
          fun c' hc' => by rw [hcount c' j hji]; exact hl₁.2 c' hc'⟩
      · intro hns'
        rw [hrec] at hns'
        have hz := (hwf.2.2 j hjdom).2 hns'
        exact ⟨fun c => by rw [hcount c j hji]; exact hz.1 c,
          by rw [hrec]; exact hz.2⟩

theorem wf_cancelTagList (dom : List Nat) (t : Nat) (ids : List Nat) :
    ∀ s : AlarmSystem, WFon dom s → (∀ j ∈ ids, j ∈ dom) →
      WFon dom (cancelTagInQueue t ids s).1 := by
  induction ids with
  | nil => intro s hwf _; exact hwf
  | cons id rest ih =>
    intro s hwf hdom
    simp only [cancelTagInQueue]
    by_cases ht : (s.alarms id).alarmTag = t
    · rw [if_pos ht]
      exact ih _ (wf_cancelNoLock dom s id hwf
          (hdom id (List.mem_cons_self id rest)))
        (fun j hj => hdom j (List.mem_cons_of_mem _ hj))
    · rw [if_neg ht]
      exact ih _ hwf (fun j hj => hdom j (List.mem_cons_of_mem _ hj))

theorem wf_cancelAlarms (dom : List Nat) (t : Nat) (s : AlarmSystem)
    (hwf : WFon dom s) : WFon dom (OSCancelAlarms t s).1 := by
  obtain ⟨s1, e0, h0⟩ : ∃ a b, cancelTagInQueue t (s.queues 0) s = (a, b) :=
    ⟨_, _, rfl⟩
  obtain ⟨s2, e1, h1⟩ : ∃ a b, cancelTagInQueue t (s1.queues 1) s1 = (a, b) :=
    ⟨_, _, rfl⟩
  have hwf1 : WFon dom s1 := by
    have h := wf_cancelTagList dom t (s.queues 0) s hwf (fun j hj => hwf.1 0 j hj)
    simpa only [h0] using h
  have hwf2 : WFon dom s2 := by
    have h := wf_cancelTagList dom t (s1.queues 1) s1 hwf1
      (fun j hj => hwf1.1 1 j hj)
    simpa only [h1] using h
  have hwf3 := wf_cancelTagList dom t (s2.queues 2) s2 hwf2
    (fun j hj => hwf2.1 2 j hj)
  show WFon dom (cancelTagInQueue t
    ((cancelTagInQueue t ((cancelTagInQueue t (s.queues 0) s).1.queues 1)
      (cancelTagInQueue t (s.queues 0) s).1).1.queues 2)
    (cancelTagInQueue t ((cancelTagInQueue t (s.queues 0) s).1.queues 1)
      (cancelTagInQueue t (s.queues 0) s).1).1).1
  rw [h0]
  show WFon dom (cancelTagInQueue t
    ((cancelTagInQueue t (s1.queues 1) s1).1.queues 2)
    (cancelTagInQueue t (s1.queues 1) s1).1).1
  rw [h1]
  exact hwf3

theorem wf_checkList (dom : List Nat) (now : Int) (ctx : Nat) (core : Fin 3)
    (ids : List Nat) :
    ∀ (s : AlarmSystem) (next : Option Int), WFon dom s →
      (∀ j ∈ ids, j ∈ s.queues core) → ids.Nodup →
      WFon dom (OSCheckList now ctx ids s next).1 := by
  induction ids with
  | nil => intro s next hwf _ _; exact hwf
  | cons id rest ih =>
    intro s next hwf hq hnodup
    have hid : id ∈ s.queues core := hq id (List.mem_cons_self id rest)
    obtain ⟨hiddom, hidset⟩ := wf_queue_state dom s hwf core id hid
    have hidrest : id ∉ rest := (List.nodup_cons.mp hnodup).1
    have hnodup' := (List.nodup_cons.mp hnodup).2
    simp only [OSCheckList]
    by_cases hdue : (s.alarms id).nextFire ≤ now ∧
        (s.alarms id).state ≠ OSAlarmState.Cancelled
    · rw [if_pos hdue]
      refine ih _ _ (wf_trigger dom s id now ctx hwf hiddom hidset) ?_ hnodup'
      intro j hj
      rw [trigger_queues]
      have hjmem : j ∈ s.queues core := hq j (List.mem_cons_of_mem _ hj)
      have hjne : j ≠ id := fun hx => hidrest (hx ▸ hj)
      by_cases hif : (s.alarms id).period = 0 ∧
          (s.alarms id).alarmQueue = some core
      · rw [if_pos hif]
        exact (mem_filter_ne _ _ _ hjne).mpr hjmem
      · rw [if_neg hif]
        exact hjmem
    · rw [if_neg hdue]
      exact ih _ _ hwf (fun j hj => hq j (List.mem_cons_of_mem _ hj)) hnodup'

theorem wf_check (dom : List Nat) (core : Fin 3) (now : Int) (ctx : Nat)
    (s : AlarmSystem) (hwf : WFon dom s) :
    WFon dom (OSCheckAlarms core now ctx s).1 :=
  wf_checkList dom now ctx core (s.queues core) s none hwf
    (fun _ hj => hj) (hwf.2.1 core)

theorem wf_applyOp (dom : List Nat) (s : AlarmSystem) (op : AlarmOp)
    (hwf : WFon dom s) (hdom : opInDom dom op)
    (hsafe : createSafe s op = true) :
    WFon dom (applyOp s op) := by
  cases op with
  | create id =>
    have hunl : ∀ c : Fin 3, (s.queues c).count id = 0 :=
      of_decide_eq_true hsafe
    exact wf_createEx dom s id none hwf hunl
  | setPeriodic core id start interval cb =>
    exact wf_setPeriodic dom s id core start interval cb hwf hdom
  | cancel id =>
    exact wf_cancelNoLock dom s id hwf hdom
  | cancelTag t =>
    exact wf_cancelAlarms dom t s hwf
  | check core now ctx =>
    exact wf_check dom core now ctx s hwf

theorem wf_run (dom : List Nat) (ops : List AlarmOp) :
    ∀ s : AlarmSystem, WFon dom s → (∀ op ∈ ops, opInDom dom op) →
      runSafe s ops = true → WFon dom (runOps s ops) := by
  induction ops with
  | nil => intro s hwf _ _; exact hwf
  | cons op rest ih =>
    intro s hwf hdom hsafe
    simp only [runSafe, Bool.and_eq_true] at hsafe
    exact ih (applyOp s op)
      (wf_applyOp dom s op hwf (hdom op (List.mem_cons_self op rest)) hsafe.1)
      (fun o ho => hdom o (List.mem_cons_of_mem _ ho)) hsafe.2

/-- C7 counterexample: the op sequence create, arm, create — all drawn from
the claim's operation set — leaves alarm 0 zeroed (`None`/Inactive) yet
still linked in core 0's queue, because `OSCreateAlarmEx` memsets the
record without unlinking it.  "Linked iff Armed" fails. -/
theorem claim_C7_counterexample :
    ((runOps initialSystem [AlarmOp.create 0,
        AlarmOp.setPeriodic 0 0 100 0 none, AlarmOp.create 0]).alarms 0).state =
      OSAlarmState.None ∧
    0 ∈ (runOps initialSystem [AlarmOp.create 0,
        AlarmOp.setPeriodic 0 0 100 0 none, AlarmOp.create 0]).queues 0 ∧
    ¬ WFon [0] (runOps initialSystem [AlarmOp.create 0,
        AlarmOp.setPeriodic 0 0 100 0 none, AlarmOp.create 0]) := by
  exact ⟨by decide, by decide, by decide⟩

/-- C7 (amended): along every operation sequence (create, arm, cancel,
cancel-by-tag, trigger-engine check) in which `Create` is only applied to
alarms not currently linked into any queue (`runSafe`), the invariant
holds: an alarm is linked into exactly one per-core queue — exactly once —
iff its state is `Set` (Armed), and `nextFire` is cleared to 0 whenever it
is not Armed. -/
theorem claim_C7_invariant (dom : List Nat) (ops : List AlarmOp)
    (s : AlarmSystem) (h0 : WFon dom s)
    (hdom : ∀ op ∈ ops, opInDom dom op)
    (hsafe : runSafe s ops = true) :
    WFon dom (runOps s ops) ∧
    (∀ id ∈ dom,
      (((runOps s ops).alarms id).state = OSAlarmState.Set ↔
        ∃ c : Fin 3, ((runOps s ops).queues c).count id = 1 ∧
          ∀ c' : Fin 3, c' ≠ c → ((runOps s ops).queues c').count id = 0) ∧
      (((runOps s ops).alarms id).state ≠ OSAlarmState.Set →
        ((runOps s ops).alarms id).nextFire = 0)) := by
  have hwf := wf_run dom ops s h0 hdom hsafe
  refine ⟨hwf, ?_⟩
  intro id hid
  constructor
  · constructor
    · intro hset
      obtain ⟨c, hb, hlo⟩ := (hwf.2.2 id hid).1 hset
      exact ⟨c, hlo.1, hlo.2⟩
    · intro hex
      by_contra hns
      obtain ⟨c, hc1, -⟩ := hex
      have hz := ((hwf.2.2 id hid).2 hns).1 c
      rw [hz] at hc1
      exact Nat.noConfusion hc1
  · intro hns
    exact ((hwf.2.2 id hid).2 hns).2

/-- C7 witness: the invariant theorem applied to the concrete run
create; arm; fire; cancel over the single-alarm domain. -/
theorem claim_C7_witness :
    WFon [0] (runOps initialSystem [AlarmOp.create 0,
      AlarmOp.setPeriodic 0 0 100 0 none, AlarmOp.check 0 150 7,
      AlarmOp.cancel 0]) ∧
    (((runOps initialSystem [AlarmOp.create 0,
        AlarmOp.setPeriodic 0 0 100 0 none, AlarmOp.check 0 150 7,
        AlarmOp.cancel 0]).alarms 0).state = OSAlarmState.Set ↔
      ∃ c : Fin 3, ((runOps initialSystem [AlarmOp.create 0,
          AlarmOp.setPeriodic 0 0 100 0 none, AlarmOp.check 0 150 7,
          AlarmOp.cancel 0]).queues c).count 0 = 1 ∧
        ∀ c' : Fin 3, c' ≠ c → ((runOps initialSystem [AlarmOp.create 0,
            AlarmOp.setPeriodic 0 0 100 0 none, AlarmOp.check 0 150 7,
            AlarmOp.cancel 0]).queues c').count 0 = 0) := by
  have h := claim_C7_invariant [0]
    [AlarmOp.create 0, AlarmOp.setPeriodic 0 0 100 0 none,
     AlarmOp.check 0 150 7, AlarmOp.cancel 0]
    initialSystem (by decide) (by decide) (by decide)
  exact ⟨h.1, (h.2 0 (by decide)).1⟩
